import Mathlib

/-!
Shallow embedding of the `triangular` repository.

Sources:
* `src/src/util.ts` — the anchor grid / triangle lattice builder `genTriangles`,
  the angular post-processing `addGlobalAngleChanges`, and the fade model
  `AnimatedTriangle`;
* the entry file — the per-tick propagation `animate`: favour weights,
  weighted random selection and the fade sweep.

Anchors are addressed by their (row, column) pair, exactly as they are indexed in
the source's 2-D `anchors` array; triangles are addressed by their index in the
creation-order `triangles` array.  The combinatorial part of the builder (anchor
neighbor links, triangle slots, triangle adjacency) is executable; vertex
geometry is over the real numbers.
-/

abbrev Addr := ℤ × ℤ

/-- The six triangle-ownership slots of an anchor:
`tT`, `tB`, `tLT`, `tRT`, `tLB`, `tRB` in the `Anchor` interface (util.ts 12-17). -/
inductive SlotK
  | tT | tB | tLT | tRT | tLB | tRB
deriving DecidableEq, Repr

/-- `colAnchorLeft` (util.ts 154): parity-dependent column of the left diagonal
neighbor in an adjacent row. -/
def colAnchorLeft (r c : ℤ) : ℤ := if r % 2 = 0 then c - 1 else c

/-- `colAnchorRight` (util.ts 155). -/
def colAnchorRight (r c : ℤ) : ℤ := if r % 2 = 0 then c else c + 1

/-- `anchor.aL` (util.ts 158): present when `col > 0`. -/
def anchorAL (r c : ℤ) : Option Addr :=
  if 0 < c then some (r, c - 1) else none

/-- `anchor.aR` (util.ts 160): present when `col < cols - 1`. -/
def anchorAR (cols : ℕ) (r c : ℤ) : Option Addr :=
  if c < (cols : ℤ) - 1 then some (r, c + 1) else none

/-- `anchor.aBL` (util.ts 161-163): present when `row > 0` and `colAnchorLeft >= 0`. -/
def anchorABL (r c : ℤ) : Option Addr :=
  if 0 < r ∧ 0 ≤ colAnchorLeft r c then some (r - 1, colAnchorLeft r c) else none

/-- `anchor.aBR` (util.ts 161-165): present when `row > 0` and `colAnchorRight < cols`. -/
def anchorABR (cols : ℕ) (r c : ℤ) : Option Addr :=
  if 0 < r ∧ colAnchorRight r c < (cols : ℤ) then some (r - 1, colAnchorRight r c) else none

/-- `anchor.aTL` (util.ts 167-169): present when `row < rows - 1` and `colAnchorLeft >= 0`. -/
def anchorATL (rows : ℕ) (r c : ℤ) : Option Addr :=
  if r < (rows : ℤ) - 1 ∧ 0 ≤ colAnchorLeft r c then some (r + 1, colAnchorLeft r c) else none

/-- `anchor.aTR` (util.ts 167-171): present when `row < rows - 1` and `colAnchorRight < cols`. -/
def anchorATR (rows cols : ℕ) (r c : ℤ) : Option Addr :=
  if r < (rows : ℤ) - 1 ∧ colAnchorRight r c < (cols : ℤ) then some (r + 1, colAnchorRight r c) else none

/-- A triangle record as created during the slot pass (util.ts 181-198): its
corner anchors only.  `aT`/`aB` is the tip anchor (exactly one is set),
`aL`/`aR` the two base corners. -/
structure Tri0 where
  aT : Option Addr := none
  aB : Option Addr := none
  aL : Addr
  aR : Addr
deriving DecidableEq, Repr

/-- State of the triangle-creation pass: the `triangles` array built so far and
the triangle slots of every anchor (`a.tT`, `a.tB`, ..., holding a triangle
index or nothing). -/
structure BState where
  tris : List Tri0
  slots : Addr → SlotK → Option ℕ

/-- Assign one triangle slot of one anchor. -/
def setSlot (f : Addr → SlotK → Option ℕ) (p : Addr) (k : SlotK) (n : ℕ) :
    Addr → SlotK → Option ℕ :=
  fun q k' => if q = p ∧ k' = k then some n else f q k'

/-- `if (!a.tT && a.aTL && a.aTR)` — Top triangle (util.ts 181-183):
`a.tT = a.aTL.tRB = a.aTR.tLB = { aB: a, aL: a.aTL, aR: a.aTR }`. -/
def stepTT (rows cols : ℕ) (s : BState) (r c : ℤ) : BState :=
  match s.slots (r, c) .tT, anchorATL rows r c, anchorATR rows cols r c with
  | none, some pTL, some pTR =>
    { tris := s.tris ++ [{ aB := some (r, c), aL := pTL, aR := pTR }],
      slots := setSlot (setSlot (setSlot s.slots (r, c) .tT s.tris.length)
        pTL .tRB s.tris.length) pTR .tLB s.tris.length }
  | _, _, _ => s

/-- `if (!a.tB && a.aBL && a.aBR)` — Bottom triangle (util.ts 184-186):
`a.tB = a.aBL.tRT = a.aBR.tLT = { aT: a, aL: a.aBL, aR: a.aBR }`. -/
def stepTB (cols : ℕ) (s : BState) (r c : ℤ) : BState :=
  match s.slots (r, c) .tB, anchorABL r c, anchorABR cols r c with
  | none, some pBL, some pBR =>
    { tris := s.tris ++ [{ aT := some (r, c), aL := pBL, aR := pBR }],
      slots := setSlot (setSlot (setSlot s.slots (r, c) .tB s.tris.length)
        pBL .tRT s.tris.length) pBR .tLT s.tris.length }
  | _, _, _ => s

/-- `if (!a.tLT && a.aL && a.aTL)` — Left Top triangle (util.ts 187-189):
`a.tLT = a.aL.tRT = a.aTL.tB = { aR: a, aL: a.aL, aT: a.aTL }`. -/
def stepLT (rows : ℕ) (s : BState) (r c : ℤ) : BState :=
  match s.slots (r, c) .tLT, anchorAL r c, anchorATL rows r c with
  | none, some pL, some pTL =>
    { tris := s.tris ++ [{ aT := some pTL, aL := pL, aR := (r, c) }],
      slots := setSlot (setSlot (setSlot s.slots (r, c) .tLT s.tris.length)
        pL .tRT s.tris.length) pTL .tB s.tris.length }
  | _, _, _ => s

/-- `if (!a.tRT && a.aR && a.aTR)` — Right Top triangle (util.ts 190-192):
`a.tRT = a.aR.tLT = a.aTR.tB = { aL: a, aR: a.aR, aT: a.aTR }`. -/
def stepRT (rows cols : ℕ) (s : BState) (r c : ℤ) : BState :=
  match s.slots (r, c) .tRT, anchorAR cols r c, anchorATR rows cols r c with
  | none, some pR, some pTR =>
    { tris := s.tris ++ [{ aT := some pTR, aL := (r, c), aR := pR }],
      slots := setSlot (setSlot (setSlot s.slots (r, c) .tRT s.tris.length)
        pR .tLT s.tris.length) pTR .tB s.tris.length }
  | _, _, _ => s

/-- `if (!a.tLB && a.aL && a.aBL)` — Left Bottom triangle (util.ts 193-195):
`a.tLB = a.aL.tRB = a.aBL.tT = { aR: a, aL: a.aL, aB: a.aBL }`. -/
def stepLB (s : BState) (r c : ℤ) : BState :=
  match s.slots (r, c) .tLB, anchorAL r c, anchorABL r c with
  | none, some pL, some pBL =>
    { tris := s.tris ++ [{ aB := some pBL, aL := pL, aR := (r, c) }],
      slots := setSlot (setSlot (setSlot s.slots (r, c) .tLB s.tris.length)
        pL .tRB s.tris.length) pBL .tT s.tris.length }
  | _, _, _ => s

/-- `if (!a.tRB && a.aR && a.aBR)` — Right Bottom triangle (util.ts 196-198):
`a.tRB = a.aR.tLB = a.aBR.tT = { aL: a, aR: a.aR, aB: a.aBR }`. -/
def stepRB (cols : ℕ) (s : BState) (r c : ℤ) : BState :=
  match s.slots (r, c) .tRB, anchorAR cols r c, anchorABR cols r c with
  | none, some pR, some pBR =>
    { tris := s.tris ++ [{ aB := some pBR, aL := (r, c), aR := pR }],
      slots := setSlot (setSlot (setSlot s.slots (r, c) .tRB s.tris.length)
        pR .tLB s.tris.length) pBR .tT s.tris.length }
  | _, _, _ => s

/-- One loop body of the triangle-creation pass (util.ts 178-200): the six slot
checks of one anchor, in source order. -/
def stepCell (rows cols : ℕ) (s : BState) (p : Addr) : BState :=
  stepRB cols (stepLB (stepRT rows cols (stepLT rows
    (stepTB cols (stepTT rows cols s p.1 p.2) p.1 p.2) p.1 p.2) p.1 p.2) p.1 p.2) p.1 p.2

/-- The anchors in row-major traversal order (`for row ... for col ...`). -/
def cells (rows cols : ℕ) : List Addr :=
  (List.range rows).flatMap fun r =>
    (List.range cols).map fun c : ℕ => ((r : ℤ), (c : ℤ))

/-- The final state of the triangle-creation pass of `genTriangles`. -/
def buildState (rows cols : ℕ) : BState :=
  (cells rows cols).foldl (stepCell rows cols) ⟨[], fun _ _ => none⟩

/-- `isPointingUp` (util.ts 117-119): a triangle points up iff its `aT` anchor is set. -/
def isPointingUp (t : Tri0) : Bool := t.aT.isSome

/-- A triangle after the neighbor-resolution `forEach` (util.ts 208-235),
restricted to its adjacency data: index and `tL`/`tR`/`tT`/`tB` neighbors. -/
structure Tri extends Tri0 where
  i : ℕ
  tL : Option ℕ
  tR : Option ℕ
  tT : Option ℕ
  tB : Option ℕ
deriving DecidableEq, Repr

/-- One iteration of the neighbor-resolution `forEach` (util.ts 208-229):
for an up-pointing triangle `tL = aL.tT`, `tR = aR.tT`, `tB = aR.tLB`;
for a down-pointing triangle `tL = aL.tB`, `tR = aR.tB`, `tT = aR.tLT`. -/
def resolveTri (sl : Addr → SlotK → Option ℕ) (i : ℕ) (t : Tri0) : Tri :=
  if isPointingUp t then
    { toTri0 := t, i := i, tL := sl t.aL .tT, tR := sl t.aR .tT,
      tT := none, tB := sl t.aR .tLB }
  else
    { toTri0 := t, i := i, tL := sl t.aL .tB, tR := sl t.aR .tB,
      tT := sl t.aR .tLT, tB := none }

/-- The `forEach` over the triangles array with its running index. -/
def resolveAll (sl : Addr → SlotK → Option ℕ) : ℕ → List Tri0 → List Tri
  | _, [] => []
  | i, t :: ts => resolveTri sl i t :: resolveAll sl (i + 1) ts

/-- The `triangles` list returned by `genTriangles` (adjacency part). -/
def genTriangles (rows cols : ℕ) : List Tri :=
  resolveAll (buildState rows cols).slots 0 (buildState rows cols).tris

/-- `tri[triangleBackProp(tri)]` (util.ts 125-127, entry file 95): the back-edge
neighbor is `tB` for an up-pointing triangle and `tT` for a down-pointing one. -/
def triangleBack (t : Tri) : Option ℕ :=
  if isPointingUp t.toTri0 then t.tB else t.tT

/-! ## Propagation engine (entry file, `animate`, lines 89-133) -/

/-- `baseFavour` (entry file 99): `!neighborTri ? 0 : neighborTri === prev ? 1 :
fadingTriangles.has(neighborTri) ? 2 : 20`. -/
def baseFavour (nb : Option ℕ) (prev : Option ℕ) (fading : List ℕ) : ℕ :=
  match nb with
  | none => 0
  | some j => if prev = some j then 1 else if j ∈ fading then 2 else 20

/-- The candidate neighbor slots of the current triangle, in source order
`['tL', 'tR', triangleBackProp(tri)]` (entry file 95). -/
def neighborSlots (t : Tri) : List (Option ℕ) :=
  [t.tL, t.tR, triangleBack t]

/-- The favour weights of `nextProps` in candidate order (entry file 96-117). -/
def nextFavours (t : Tri) (prev : Option ℕ) (fading : List ℕ) : List ℕ :=
  (neighborSlots t).map fun nb => baseFavour nb prev fading

/-- `totalFavour` (entry file 120). -/
def totalFavour (t : Tri) (prev : Option ℕ) (fading : List ℕ) : ℕ :=
  (nextFavours t prev fading).sum

/-- The in-place running-cumulative-sum rewrite of the favour list
(entry file 119-124). -/
def cumulative (acc : ℚ) : List ℚ → List ℚ
  | [] => []
  | w :: ws => (acc + w) :: cumulative (acc + w) ws

/-- `nextProps.find(np => rand < np.favour)` (entry file 126), as the index of
the first entry of the cumulative list exceeding the draw. -/
def pickFirst (r : ℚ) : List ℚ → Option ℕ
  | [] => none
  | c :: cs => if r < c then some 0 else (pickFirst r cs).map (· + 1)

/-- The weighted selection of `animate`: cumulative sums of the weights in
candidate order, then the first candidate whose cumulative sum exceeds the
draw `r`. -/
def selectedIndex (ws : List ℚ) (r : ℚ) : Option ℕ :=
  pickFirst r (cumulative 0 ws)

/-! ## The result of `genTriangles`, including the final grid read
(util.ts 206-207) -/

/-- The `anchors` 2-D array, as row-major address lists (util.ts 139-148). -/
def anchorRows (rows cols : ℕ) : List (List Addr) :=
  (List.range rows).map fun r => (List.range cols).map fun c => ((r : ℤ), (c : ℤ))

/-- `genTriangles` evaluates `anchors[rows - 1][cols - 1].x` (util.ts 206)
before building its result.  When either dimension is zero that indexing yields
`undefined` and the `.x` access throws a TypeError; the thrown run is modelled
as `none`. -/
def genTrianglesRun (rows cols : ℕ) : Option (List Tri) :=
  match (anchorRows rows cols).get? (rows - 1) with
  | none => none
  | some lastRow =>
    match lastRow.get? (cols - 1) with
    | none => none
    | some _ => some (genTriangles rows cols)

/-! ## Fade model (util.ts 274-302) and the fade sweep (entry file 138-149) -/

/-- `fadeInc` (util.ts 274). -/
def fadeInc : ℚ := 1 / 1000

/-- Modelled from the spec: the three.js `Color` used by `AnimatedTriangle` is an
external dependency; it stores a color whose HSL view is read and written by
`getHSL`/`offsetHSL`/`setHSL`.  It is modelled directly as its HSL triple, with
three.js's `setHSL` wrapping of the hue into `[0, 1)` and clamping of saturation
and lightness into `[0, 1]`. -/
structure ColorHSL where
  h : ℚ
  s : ℚ
  l : ℚ
deriving DecidableEq, Repr

/-- three.js `clamp(value, 0, 1)` as applied by `Color.setHSL`. -/
def clamp01 (x : ℚ) : ℚ := max 0 (min x 1)

/-- three.js `euclideanModulo(h, 1)` as applied by `Color.setHSL`. -/
def wrapHue (x : ℚ) : ℚ := x - ⌊x⌋

/-- three.js `Color.offsetHSL(dh, ds, dl)`: read the HSL view, add the offsets,
write it back through `setHSL`. -/
def offsetHSL (c : ColorHSL) (dh ds dl : ℚ) : ColorHSL :=
  { h := wrapHue (c.h + dh), s := clamp01 (c.s + ds), l := clamp01 (c.l + dl) }

/-- The HSL view of `setRGB(0, 0, 0)`: pure black. -/
def blackColor : ColorHSL := { h := 0, s := 0, l := 0 }

/-- `AnimatedTriangle.isFaded` (util.ts 297-301): lightness below `fadeInc`. -/
def colorIsFaded (c : ColorHSL) : Bool := c.l < fadeInc

/-- `AnimatedTriangle.animate` (util.ts 288-295): darken by `fadeInc`, then snap
to black if faded. -/
def animateColor (c : ColorHSL) : ColorHSL :=
  let c' := offsetHSL c 0 0 (-fadeInc)
  if colorIsFaded c' then blackColor else c'

/-- `AnimatedTriangle` (util.ts 276-302): a triangle index, a flat-buffer index
and a mutable color. -/
structure AnimatedTriangle where
  triangle : ℕ
  index : ℕ
  color : ColorHSL
deriving DecidableEq, Repr

def AnimatedTriangle.animate (a : AnimatedTriangle) : AnimatedTriangle :=
  { a with color := animateColor a.color }

def AnimatedTriangle.isFaded (a : AnimatedTriangle) : Bool := colorIsFaded a.color

/-- The class `AnimatedTriangle` (util.ts 276-302) declares no `getPositions`
member, so the property access `anim.getPositions` in the fade sweep
(entry file 145) yields `undefined`. -/
def getPositionsMember : Option (AnimatedTriangle → List ℚ) := none

/-- The fade-sweep body for one fading entry (entry file 138-148):
`anim.animate()`, the color buffer write, then
`positions.set(anim.getPositions(), ...)` — which throws a TypeError because
`anim.getPositions` is `undefined` — and finally the lazy removal of faded
entries.  The thrown exception is modelled as `Except.error`. -/
def sweepEntry (a : AnimatedTriangle) : Except String AnimatedTriangle :=
  let a' := a.animate
  match getPositionsMember with
  | none => .error "TypeError: anim.getPositions is not a function"
  | some f =>
    let _ := f a'
    .ok a'

/-- The fade sweep over the `fadingTriangles` entries (entry file 138-149):
each entry is animated and written out, and removed when fully faded; an
exception aborts the whole sweep. -/
def fadeSweep : List (ℕ × AnimatedTriangle) → Except String (List (ℕ × AnimatedTriangle))
  | [] => .ok []
  | (k, a) :: rest =>
    match sweepEntry a with
    | .error e => .error e
    | .ok a' =>
      (fadeSweep rest).map fun r => if a'.isFaded then r else (k, a') :: r

/-! ## Vertex geometry (util.ts 138-148, 203-235) and angular post-processing
(util.ts 256-272) -/

open Real in
/-- `deg60 = Math.PI / 3` (util.ts 140). -/
noncomputable def deg60 : ℝ := π / 3

open Real in
/-- `deg30 = Math.PI / 6` (util.ts 203). -/
noncomputable def deg30 : ℝ := π / 6

/-- `colInc = Math.cos(deg60) * distance` (util.ts 141). -/
noncomputable def colInc (d : ℝ) : ℝ := Real.cos deg60 * d

/-- `rowInc = Math.sin(deg60) * distance` (util.ts 142). -/
noncomputable def rowInc (d : ℝ) : ℝ := Real.sin deg60 * d

/-- Anchor x-coordinate: `col * distance + (row % 2) * colInc` (util.ts 146). -/
noncomputable def anchorX (d : ℝ) (r c : ℤ) : ℝ := (c : ℝ) * d + ((r % 2 : ℤ) : ℝ) * colInc d

/-- Anchor y-coordinate: `row * rowInc` (util.ts 146). -/
noncomputable def anchorY (d : ℝ) (r : ℤ) : ℝ := (r : ℝ) * rowInc d

/-- `anchorPadX = Math.cos(deg30) * padding` (util.ts 204). -/
noncomputable def anchorPadX (p : ℝ) : ℝ := Real.cos deg30 * p

/-- `anchorPadY = Math.sin(deg30) * padding` (util.ts 205). -/
noncomputable def anchorPadY (p : ℝ) : ℝ := Real.sin deg30 * p

/-- `globalCenterX = anchors[rows - 1][cols - 1].x / 2` (util.ts 206). -/
noncomputable def globalCenterX (rows cols : ℕ) (d : ℝ) : ℝ :=
  anchorX d ((rows : ℤ) - 1) ((cols : ℤ) - 1) / 2

/-- `globalCenterY = anchors[rows - 1][cols - 1].y / 2` (util.ts 207). -/
noncomputable def globalCenterY (rows : ℕ) (d : ℝ) : ℝ :=
  anchorY d ((rows : ℤ) - 1) / 2

/-- The `tri.position` array (util.ts 215-219 for up-pointing triangles,
224-228 for down-pointing ones), with `tri.aT?.x ?? 0` modelled by
`Option.elim`. -/
noncomputable def triPosition (d p : ℝ) (t : Tri0) : List ℝ :=
  if isPointingUp t then
    [t.aT.elim 0 fun a => anchorX d a.1 a.2, (t.aT.elim 0 fun a => anchorY d a.1) - p, 0,
     anchorX d t.aR.1 t.aR.2 - anchorPadX p, anchorY d t.aR.1 + anchorPadY p, 0,
     anchorX d t.aL.1 t.aL.2 + anchorPadX p, anchorY d t.aL.1 + anchorPadY p, 0]
  else
    [t.aB.elim 0 fun a => anchorX d a.1 a.2, (t.aB.elim 0 fun a => anchorY d a.1) + p, 0,
     anchorX d t.aL.1 t.aL.2 + anchorPadX p, anchorY d t.aL.1 - anchorPadY p, 0,
     anchorX d t.aR.1 t.aR.2 - anchorPadX p, anchorY d t.aR.1 - anchorPadY p, 0]

/-- `tri.centerX = (position[0] + position[3] + position[6]) / 3` (util.ts 231). -/
noncomputable def triCenterX (d p : ℝ) (t : Tri0) : ℝ :=
  ((triPosition d p t).getD 0 0 + (triPosition d p t).getD 3 0 + (triPosition d p t).getD 6 0) / 3

/-- `tri.centerY = (position[1] + position[4] + position[7]) / 3` (util.ts 232). -/
noncomputable def triCenterY (d p : ℝ) (t : Tri0) : ℝ :=
  ((triPosition d p t).getD 1 0 + (triPosition d p t).getD 4 0 + (triPosition d p t).getD 7 0) / 3

/-- A triangle after the full resolution `forEach` (util.ts 208-235): adjacency
plus vertex positions, centroid and global offset. -/
structure TriG extends Tri where
  position : List ℝ
  centerX : ℝ
  centerY : ℝ
  globalOffsetX : ℝ
  globalOffsetY : ℝ

/-- One iteration of the full resolution `forEach` (util.ts 208-235). -/
noncomputable def resolveGeo (rows cols : ℕ) (d p : ℝ) (sl : Addr → SlotK → Option ℕ)
    (i : ℕ) (t : Tri0) : TriG :=
  { toTri := resolveTri sl i t,
    position := triPosition d p t,
    centerX := triCenterX d p t,
    centerY := triCenterY d p t,
    globalOffsetX := triCenterX d p t - globalCenterX rows cols d,
    globalOffsetY := triCenterY d p t - globalCenterY rows d }

/-- The full resolution `forEach` over the triangles array. -/
noncomputable def resolveAllGeo (rows cols : ℕ) (d p : ℝ) (sl : Addr → SlotK → Option ℕ) :
    ℕ → List Tri0 → List TriG
  | _, [] => []
  | i, t :: ts => resolveGeo rows cols d p sl i t :: resolveAllGeo rows cols d p sl (i + 1) ts

/-- The `triangles` list returned by `genTriangles(rows, cols, distance, padding)`
with its geometry. -/
noncomputable def genTrianglesGeo (rows cols : ℕ) (d p : ℝ) : List TriG :=
  resolveAllGeo rows cols d p (buildState rows cols).slots 0 (buildState rows cols).tris

/-- `Math.atan2(y, x)`: the principal polar angle, in `(-π, π]`. -/
noncomputable def atan2 (y x : ℝ) : ℝ := Complex.arg ⟨x, y⟩

/-- A triangle after `addGlobalAngleChanges` (util.ts 256-272). -/
structure TriGA extends TriG where
  globalAngle : ℝ
  gac_tT : Option ℝ
  gac_tB : Option ℝ
  gac_tL : Option ℝ
  gac_tR : Option ℝ

/-- `addGlobalAngleChanges` (util.ts 256-272): per triangle, the global angle of
its centroid offset and, for each populated neighbor slot, the neighbor's
bearing from this centroid minus this triangle's global angle. -/
noncomputable def addGlobalAngleChanges (l : List TriG) : List TriGA :=
  l.map fun tri =>
    let ga := atan2 tri.globalOffsetY tri.globalOffsetX
    { toTriG := tri,
      globalAngle := ga,
      gac_tT := tri.tT.bind fun j => (l.get? j).map fun nb =>
        atan2 (nb.centerY - tri.centerY) (nb.centerX - tri.centerX) - ga,
      gac_tB := tri.tB.bind fun j => (l.get? j).map fun nb =>
        atan2 (nb.centerY - tri.centerY) (nb.centerX - tri.centerX) - ga,
      gac_tL := tri.tL.bind fun j => (l.get? j).map fun nb =>
        atan2 (nb.centerY - tri.centerY) (nb.centerX - tri.centerX) - ga,
      gac_tR := tri.tR.bind fun j => (l.get? j).map fun nb =>
        atan2 (nb.centerY - tri.centerY) (nb.centerX - tri.centerX) - ga }

/-! ## Lattice arithmetic lemmas -/

lemma colAnchorRight_eq (r c : ℤ) : colAnchorRight r c = colAnchorLeft r c + 1 := by
  unfold colAnchorLeft colAnchorRight
  split_ifs <;> ring

lemma colAnchorLeft_inj {r c c' : ℤ} (h : colAnchorLeft r c = colAnchorLeft r c') : c = c' := by
  unfold colAnchorLeft at h
  split_ifs at h <;> omega

lemma colAnchorLeft_succ_left (r c : ℤ) :
    colAnchorLeft (r + 1) (colAnchorLeft r c) = c - 1 := by
  unfold colAnchorLeft
  split_ifs <;> omega

lemma colAnchorLeft_succ_right (r c : ℤ) :
    colAnchorLeft (r + 1) (colAnchorLeft r c + 1) = c := by
  unfold colAnchorLeft
  split_ifs <;> omega

lemma colAnchorLeft_pred_left (r c : ℤ) :
    colAnchorLeft (r - 1) (colAnchorLeft r c) = c - 1 := by
  unfold colAnchorLeft
  split_ifs <;> omega

lemma colAnchorLeft_pred_right (r c : ℤ) :
    colAnchorLeft (r - 1) (colAnchorLeft r c + 1) = c := by
  unfold colAnchorLeft
  split_ifs <;> omega

/-! ## Inversion lemmas for anchor neighbor links -/

lemma anchorAL_some {r c : ℤ} {q : Addr} (h : anchorAL r c = some q) :
    0 < c ∧ q = (r, c - 1) := by
  unfold anchorAL at h; split_ifs at h with hc
  exact ⟨hc, (Option.some_injective _ h).symm⟩

lemma anchorAR_some {cols : ℕ} {r c : ℤ} {q : Addr} (h : anchorAR cols r c = some q) :
    c < (cols : ℤ) - 1 ∧ q = (r, c + 1) := by
  unfold anchorAR at h; split_ifs at h with hc
  exact ⟨hc, (Option.some_injective _ h).symm⟩

lemma anchorABL_some {r c : ℤ} {q : Addr} (h : anchorABL r c = some q) :
    0 < r ∧ 0 ≤ colAnchorLeft r c ∧ q = (r - 1, colAnchorLeft r c) := by
  unfold anchorABL at h; split_ifs at h with hc
  exact ⟨hc.1, hc.2, (Option.some_injective _ h).symm⟩

lemma anchorABR_some {cols : ℕ} {r c : ℤ} {q : Addr} (h : anchorABR cols r c = some q) :
    0 < r ∧ colAnchorLeft r c + 1 < (cols : ℤ) ∧ q = (r - 1, colAnchorLeft r c + 1) := by
  unfold anchorABR at h; rw [colAnchorRight_eq] at h; split_ifs at h with hc
  exact ⟨hc.1, hc.2, (Option.some_injective _ h).symm⟩

lemma anchorATL_some {rows : ℕ} {r c : ℤ} {q : Addr} (h : anchorATL rows r c = some q) :
    r < (rows : ℤ) - 1 ∧ 0 ≤ colAnchorLeft r c ∧ q = (r + 1, colAnchorLeft r c) := by
  unfold anchorATL at h; split_ifs at h with hc
  exact ⟨hc.1, hc.2, (Option.some_injective _ h).symm⟩

lemma anchorATR_some {rows cols : ℕ} {r c : ℤ} {q : Addr} (h : anchorATR rows cols r c = some q) :
    r < (rows : ℤ) - 1 ∧ colAnchorLeft r c + 1 < (cols : ℤ) ∧ q = (r + 1, colAnchorLeft r c + 1) := by
  unfold anchorATR at h; rw [colAnchorRight_eq] at h; split_ifs at h with hc
  exact ⟨hc.1, hc.2, (Option.some_injective _ h).symm⟩

/-! ## Shape of created triangles -/

/-- An up-pointing triangle of the lattice: tip anchor at `(r, c)`, base corners
on the row below, with all three anchors inside the grid. -/
def UpOK (rows cols : ℕ) (t : Tri0) : Prop :=
  ∃ r c : ℤ, t.aT = some (r, c) ∧ t.aB = none ∧
    t.aL = (r - 1, colAnchorLeft r c) ∧ t.aR = (r - 1, colAnchorLeft r c + 1) ∧
    1 ≤ r ∧ r < (rows : ℤ) ∧ 0 ≤ colAnchorLeft r c ∧ colAnchorLeft r c + 1 < (cols : ℤ)

/-- A down-pointing triangle of the lattice: tip anchor at `(r, c)`, base corners
on the row above, with all three anchors inside the grid. -/
def DownOK (rows cols : ℕ) (t : Tri0) : Prop :=
  ∃ r c : ℤ, t.aB = some (r, c) ∧ t.aT = none ∧
    t.aL = (r + 1, colAnchorLeft r c) ∧ t.aR = (r + 1, colAnchorLeft r c + 1) ∧
    0 ≤ r ∧ r + 1 < (rows : ℤ) ∧ 0 ≤ colAnchorLeft r c ∧ colAnchorLeft r c + 1 < (cols : ℤ)

/-- The three anchor slots a triangle is linked into at creation. -/
def linkOf (t : Tri0) : List (SlotK × Addr) :=
  match t.aT, t.aB with
  | some p, _ => [(.tB, p), (.tRT, t.aL), (.tLT, t.aR)]
  | none, some p => [(.tT, p), (.tRB, t.aL), (.tLB, t.aR)]
  | none, none => []

/-- What a populated slot of kind `k` at anchor `p` says about the triangle
stored in it. -/
def SlotBack : SlotK → Addr → Tri0 → Prop
  | .tT, p, t => t.aB = some p
  | .tB, p, t => t.aT = some p
  | .tLT, p, t => t.aT.isSome ∧ t.aR = p
  | .tRT, p, t => t.aT.isSome ∧ t.aL = p
  | .tLB, p, t => t.aB.isSome ∧ t.aR = p
  | .tRB, p, t => t.aB.isSome ∧ t.aL = p

/-- The building invariant: every created triangle is well-shaped and linked
into exactly its three anchor slots, and every populated slot points back to a
created triangle of the matching shape. -/
def BuildInv (rows cols : ℕ) (s : BState) : Prop :=
  (∀ i t, s.tris.get? i = some t →
    (UpOK rows cols t ∨ DownOK rows cols t) ∧
    ∀ kp ∈ linkOf t, s.slots kp.2 kp.1 = some i) ∧
  (∀ p k i, s.slots p k = some i → ∃ t, s.tris.get? i = some t ∧ SlotBack k p t)

/-! ## Uniqueness of well-shaped triangles sharing an anchor role -/

lemma upOK_ext {rows cols : ℕ} {u t : Tri0} (hu : UpOK rows cols u) (ht : UpOK rows cols t)
    (h : u.aT = t.aT ∨ u.aL = t.aL ∨ u.aR = t.aR) : u = t := by
  obtain ⟨r, c, huT, huB, huL, huR, -⟩ := hu
  obtain ⟨r', c', htT, htB, htL, htR, -⟩ := ht
  have hrc : r = r' ∧ c = c' := by
    rcases h with h | h | h
    · rw [huT, htT] at h
      have := Option.some_injective _ h
      exact ⟨congrArg Prod.fst this, congrArg Prod.snd this⟩
    · rw [huL, htL] at h
      have h1 : r - 1 = r' - 1 := congrArg Prod.fst h
      have hr : r = r' := by omega
      subst hr
      exact ⟨rfl, colAnchorLeft_inj (congrArg Prod.snd h)⟩
    · rw [huR, htR] at h
      have h1 : r - 1 = r' - 1 := congrArg Prod.fst h
      have hr : r = r' := by omega
      subst hr
      have h2 : colAnchorLeft r c + 1 = colAnchorLeft r c' + 1 := congrArg Prod.snd h
      have h3 : colAnchorLeft r c = colAnchorLeft r c' := by omega
      exact ⟨rfl, colAnchorLeft_inj h3⟩
  obtain ⟨hr, hc⟩ := hrc
  subst hr; subst hc
  cases u; cases t
  simp_all

lemma downOK_ext {rows cols : ℕ} {u t : Tri0} (hu : DownOK rows cols u) (ht : DownOK rows cols t)
    (h : u.aB = t.aB ∨ u.aL = t.aL ∨ u.aR = t.aR) : u = t := by
  obtain ⟨r, c, huB, huT, huL, huR, -⟩ := hu
  obtain ⟨r', c', htB, htT, htL, htR, -⟩ := ht
  have hrc : r = r' ∧ c = c' := by
    rcases h with h | h | h
    · rw [huB, htB] at h
      have := Option.some_injective _ h
      exact ⟨congrArg Prod.fst this, congrArg Prod.snd this⟩
    · rw [huL, htL] at h
      have h1 : r + 1 = r' + 1 := congrArg Prod.fst h
      have hr : r = r' := by omega
      subst hr
      exact ⟨rfl, colAnchorLeft_inj (congrArg Prod.snd h)⟩
    · rw [huR, htR] at h
      have h1 : r + 1 = r' + 1 := congrArg Prod.fst h
      have hr : r = r' := by omega
      subst hr
      have h2 : colAnchorLeft r c + 1 = colAnchorLeft r c' + 1 := congrArg Prod.snd h
      have h3 : colAnchorLeft r c = colAnchorLeft r c' := by omega
      exact ⟨rfl, colAnchorLeft_inj h3⟩
  obtain ⟨hr, hc⟩ := hrc
  subst hr; subst hc
  cases u; cases t
  simp_all

/-- `linkOf` of an up-pointing record. -/
lemma linkOf_up (p : Addr) (aB : Option Addr) (x y : Addr) :
    linkOf ⟨some p, aB, x, y⟩ = [(.tB, p), (.tRT, x), (.tLT, y)] := rfl

/-- `linkOf` of a down-pointing record. -/
lemma linkOf_down (p : Addr) (x y : Addr) :
    linkOf ⟨none, some p, x, y⟩ = [(.tT, p), (.tRB, x), (.tLB, y)] := rfl

lemma linkOf_of_aT {t : Tri0} {p : Addr} (h : t.aT = some p) :
    linkOf t = [(.tB, p), (.tRT, t.aL), (.tLT, t.aR)] := by
  unfold linkOf; rw [h]

lemma linkOf_of_aB {t : Tri0} {p : Addr} (hT : t.aT = none) (hB : t.aB = some p) :
    linkOf t = [(.tT, p), (.tRB, t.aL), (.tLB, t.aR)] := by
  unfold linkOf; rw [hT, hB]

/-- A well-shaped triangle satisfies the slot contract of each of its own links. -/
lemma slotBack_linkOf_self {rows cols : ℕ} {t : Tri0}
    (h : UpOK rows cols t ∨ DownOK rows cols t) :
    ∀ kp ∈ linkOf t, SlotBack kp.1 kp.2 t := by
  intro kp hkp
  rcases h with ⟨r, c, hT, hB, hL, hR, -, -, -, -⟩ | ⟨r, c, hB, hT, hL, hR, -, -, -, -⟩
  · rw [linkOf_of_aT hT] at hkp
    simp only [List.mem_cons, List.not_mem_nil, or_false] at hkp
    rcases hkp with h | h | h <;> subst h <;> simp [SlotBack, hT, hB]
  · rw [linkOf_of_aB hT hB] at hkp
    simp only [List.mem_cons, List.not_mem_nil, or_false] at hkp
    rcases hkp with h | h | h <;> subst h <;> simp [SlotBack, hT, hB]

/-- Any well-shaped triangle satisfying the slot contract of one of `T`\'s links
is `T` itself. -/
lemma linkOf_ext {rows cols : ℕ} {T u : Tri0}
    (hT : UpOK rows cols T ∨ DownOK rows cols T)
    (hu : UpOK rows cols u ∨ DownOK rows cols u)
    {kp : SlotK × Addr} (hkp : kp ∈ linkOf T) (hb : SlotBack kp.1 kp.2 u) : u = T := by
  rcases hT with hTu | hTd
  · obtain ⟨r, c, hTT, hTB, hTL, hTR, -, -, -, -⟩ := id hTu
    rw [linkOf_of_aT hTT] at hkp
    simp only [List.mem_cons, List.not_mem_nil, or_false] at hkp
    have huu : UpOK rows cols u := by
      rcases hu with hu | hu
      · exact hu
      · obtain ⟨r', c', -, huT, -, -, -, -, -, -⟩ := hu
        exfalso
        rcases hkp with h | h | h <;> subst h <;> simp [SlotBack, huT] at hb
    rcases hkp with h | h | h <;> subst h
    · exact upOK_ext huu hTu (Or.inl (by rw [hb, hTT]))
    · exact upOK_ext huu hTu (Or.inr (Or.inl hb.2))
    · exact upOK_ext huu hTu (Or.inr (Or.inr hb.2))
  · obtain ⟨r, c, hTB, hTT, hTL, hTR, -, -, -, -⟩ := id hTd
    rw [linkOf_of_aB hTT hTB] at hkp
    simp only [List.mem_cons, List.not_mem_nil, or_false] at hkp
    have hud : DownOK rows cols u := by
      rcases hu with hu | hu
      · obtain ⟨r', c', -, huB, -, -, -, -, -, -⟩ := hu
        exfalso
        rcases hkp with h | h | h <;> subst h <;> simp [SlotBack, huB] at hb
      · exact hu
    rcases hkp with h | h | h <;> subst h
    · exact downOK_ext hud hTd (Or.inl (by rw [hb, hTB]))
    · exact downOK_ext hud hTd (Or.inr (Or.inl hb.2))
    · exact downOK_ext hud hTd (Or.inr (Or.inr hb.2))

/-! ## Generic preservation of the building invariant under one creation -/

lemma get?_snoc {α : Type} (l : List α) (a : α) (i : ℕ) :
    (l ++ [a]).get? i = if i = l.length then some a else l.get? i := by
  rcases lt_trichotomy i l.length with h | h | h
  · rw [if_neg h.ne, List.get?_append h]
  · subst h
    rw [if_pos rfl, List.get?_concat_length]
  · rw [if_neg h.ne', List.get?_eq_none.mpr h.le, List.get?_eq_none.mpr]
    simp only [List.length_append, List.length_singleton]
    omega

lemma write3_eq (f : Addr → SlotK → Option ℕ) (n : ℕ) (k0 k1 k2 : SlotK) (p0 p1 p2 : Addr)
    (q : Addr) (k : SlotK) :
    setSlot (setSlot (setSlot f p0 k0 n) p1 k1 n) p2 k2 n q k =
      if (k, q) ∈ [(k0, p0), (k1, p1), (k2, p2)] then some n else f q k := by
  simp only [setSlot, List.mem_cons, List.not_mem_nil, or_false, Prod.mk.injEq]
  split_ifs <;> tauto

/-- Creating one triangle `T`, guarded by one of its slots being empty, and
linking it into its three anchor slots preserves the building invariant. -/
lemma createInv {rows cols : ℕ} {s : BState} {T : Tri0} (gk : SlotK) (gp : Addr)
    (hInv : BuildInv rows cols s)
    (hOK : UpOK rows cols T ∨ DownOK rows cols T)
    (hg : (gk, gp) ∈ linkOf T)
    (hnone : s.slots gp gk = none)
    {s' : BState}
    (htris : s'.tris = s.tris ++ [T])
    (hslots : ∀ q k, s'.slots q k =
      if (k, q) ∈ linkOf T then some s.tris.length else s.slots q k) :
    BuildInv rows cols s' := by
  -- all three link slots of `T` are still empty
  have hall : ∀ k q, (k, q) ∈ linkOf T → s.slots q k = none := by
    intro k q hkq
    rcases hop : s.slots q k with _ | m
    · rfl
    · exfalso
      obtain ⟨u, hu, hb⟩ := hInv.2 q k m hop
      have huok := (hInv.1 m u hu).1
      have huT : u = T := linkOf_ext hOK huok hkq hb
      subst huT
      have := (hInv.1 m u hu).2 (gk, gp) hg
      rw [hnone] at this
      cases this
  constructor
  · intro i t hget
    rw [htris, get?_snoc] at hget
    by_cases hi : i = s.tris.length
    · rw [if_pos hi] at hget
      have ht : t = T := (Option.some_injective _ hget).symm
      subst ht
      refine ⟨hOK, ?_⟩
      intro kp hkp
      rw [hslots kp.2 kp.1, if_pos (by simpa using hkp), hi]
    · rw [if_neg hi] at hget
      obtain ⟨hok, hlink⟩ := hInv.1 i t hget
      refine ⟨hok, ?_⟩
      intro kp hkp
      rw [hslots kp.2 kp.1, if_neg]
      · exact hlink kp hkp
      · intro hmem
        have := hall kp.1 kp.2 hmem
        rw [hlink kp hkp] at this
        cases this
  · intro p k i hsl
    rw [hslots p k] at hsl
    by_cases hmem : (k, p) ∈ linkOf T
    · rw [if_pos hmem] at hsl
      have hi : i = s.tris.length := (Option.some_injective _ hsl).symm
      subst hi
      refine ⟨T, ?_, slotBack_linkOf_self hOK (k, p) hmem⟩
      rw [htris, get?_snoc, if_pos rfl]
    · rw [if_neg hmem] at hsl
      obtain ⟨t, hget, hb⟩ := hInv.2 p k i hsl
      have hlt : i < s.tris.length := by
        by_contra hge
        rw [List.get?_eq_none.mpr (by omega)] at hget
        cases hget
      refine ⟨t, ?_, hb⟩
      rw [htris, get?_snoc, if_neg hlt.ne]
      exact hget

/-! ## Per-block preservation of the building invariant -/

/-- Anchor address inside the grid. -/
def inGrid (rows cols : ℕ) (p : Addr) : Prop :=
  0 ≤ p.1 ∧ p.1 < (rows : ℤ) ∧ 0 ≤ p.2 ∧ p.2 < (cols : ℤ)

lemma stepTT_inv {rows cols : ℕ} {s : BState} {r c : ℤ}
    (hg : inGrid rows cols (r, c)) (hInv : BuildInv rows cols s) :
    BuildInv rows cols (stepTT rows cols s r c) := by
  unfold stepTT
  split
  · rename_i pTL pTR h1 h2 h3
    obtain ⟨hr1, hc1, hpTL⟩ := anchorATL_some h2
    obtain ⟨hr2, hc2, hpTR⟩ := anchorATR_some h3
    subst hpTL; subst hpTR
    refine createInv (T := ⟨none, some (r, c), (r + 1, colAnchorLeft r c),
      (r + 1, colAnchorLeft r c + 1)⟩) .tT (r, c) hInv ?_ ?_ h1 rfl ?_
    · exact Or.inr ⟨r, c, rfl, rfl, rfl, rfl, hg.1, by omega, hc1, hc2⟩
    · rw [linkOf_down]
      exact List.mem_cons_self _ _
    · intro q k
      dsimp only
      rw [write3_eq, linkOf_down]
  · exact hInv

lemma stepTB_inv {rows cols : ℕ} {s : BState} {r c : ℤ}
    (hg : inGrid rows cols (r, c)) (hInv : BuildInv rows cols s) :
    BuildInv rows cols (stepTB cols s r c) := by
  unfold stepTB
  split
  · rename_i pBL pBR h1 h2 h3
    obtain ⟨hg1, hg2, hg3, hg4⟩ := hg
    obtain ⟨hr1, hc1, hpBL⟩ := anchorABL_some h2
    obtain ⟨hr2, hc2, hpBR⟩ := anchorABR_some h3
    subst hpBL; subst hpBR
    refine createInv (T := ⟨some (r, c), none, (r - 1, colAnchorLeft r c),
      (r - 1, colAnchorLeft r c + 1)⟩) .tB (r, c) hInv ?_ ?_ h1 rfl ?_
    · exact Or.inl ⟨r, c, rfl, rfl, rfl, rfl, by omega, hg2, hc1, hc2⟩
    · rw [linkOf_up]
      exact List.mem_cons_self _ _
    · intro q k
      dsimp only
      rw [write3_eq, linkOf_up]
  · exact hInv

lemma stepLT_inv {rows cols : ℕ} {s : BState} {r c : ℤ}
    (hg : inGrid rows cols (r, c)) (hInv : BuildInv rows cols s) :
    BuildInv rows cols (stepLT rows s r c) := by
  unfold stepLT
  split
  · rename_i pL pTL h1 h2 h3
    obtain ⟨hg1, hg2, hg3, hg4⟩ := hg
    obtain ⟨hc0, hpL⟩ := anchorAL_some h2
    obtain ⟨hr1, hc1, hpTL⟩ := anchorATL_some h3
    subst hpL; subst hpTL
    refine createInv (T := ⟨some (r + 1, colAnchorLeft r c), none, (r, c - 1), (r, c)⟩)
      .tLT (r, c) hInv ?_ ?_ h1 rfl ?_
    · refine Or.inl ⟨r + 1, colAnchorLeft r c, rfl, rfl, ?_, ?_, by omega, by omega, ?_, ?_⟩
      · rw [colAnchorLeft_succ_left]; norm_num
      · rw [colAnchorLeft_succ_left]; norm_num
      · rw [colAnchorLeft_succ_left]; omega
      · rw [colAnchorLeft_succ_left]; omega
    · rw [linkOf_up]; simp
    · intro q k
      dsimp only
      rw [write3_eq, linkOf_up]
      refine if_congr ?_ rfl rfl
      simp only [List.mem_cons, List.not_mem_nil, or_false]
      tauto
  · exact hInv

lemma stepRT_inv {rows cols : ℕ} {s : BState} {r c : ℤ}
    (hg : inGrid rows cols (r, c)) (hInv : BuildInv rows cols s) :
    BuildInv rows cols (stepRT rows cols s r c) := by
  unfold stepRT
  split
  · rename_i pR pTR h1 h2 h3
    obtain ⟨hg1, hg2, hg3, hg4⟩ := hg
    obtain ⟨hc0, hpR⟩ := anchorAR_some h2
    obtain ⟨hr1, hc1, hpTR⟩ := anchorATR_some h3
    subst hpR; subst hpTR
    refine createInv (T := ⟨some (r + 1, colAnchorLeft r c + 1), none, (r, c), (r, c + 1)⟩)
      .tRT (r, c) hInv ?_ ?_ h1 rfl ?_
    · refine Or.inl ⟨r + 1, colAnchorLeft r c + 1, rfl, rfl, ?_, ?_, by omega, by omega, ?_, ?_⟩
      · rw [colAnchorLeft_succ_right]; norm_num
      · rw [colAnchorLeft_succ_right]; norm_num
      · rw [colAnchorLeft_succ_right]; omega
      · rw [colAnchorLeft_succ_right]; omega
    · rw [linkOf_up]; simp
    · intro q k
      dsimp only
      rw [write3_eq, linkOf_up]
      refine if_congr ?_ rfl rfl
      simp only [List.mem_cons, List.not_mem_nil, or_false]
      tauto
  · exact hInv

lemma stepLB_inv {rows cols : ℕ} {s : BState} {r c : ℤ}
    (hg : inGrid rows cols (r, c)) (hInv : BuildInv rows cols s) :
    BuildInv rows cols (stepLB s r c) := by
  unfold stepLB
  split
  · rename_i pL pBL h1 h2 h3
    obtain ⟨hg1, hg2, hg3, hg4⟩ := hg
    obtain ⟨hc0, hpL⟩ := anchorAL_some h2
    obtain ⟨hr1, hc1, hpBL⟩ := anchorABL_some h3
    subst hpL; subst hpBL
    refine createInv (T := ⟨none, some (r - 1, colAnchorLeft r c), (r, c - 1), (r, c)⟩)
      .tLB (r, c) hInv ?_ ?_ h1 rfl ?_
    · refine Or.inr ⟨r - 1, colAnchorLeft r c, rfl, rfl, ?_, ?_, by omega, by omega, ?_, ?_⟩
      · rw [colAnchorLeft_pred_left]; norm_num
      · rw [colAnchorLeft_pred_left]; norm_num
      · rw [colAnchorLeft_pred_left]; omega
      · rw [colAnchorLeft_pred_left]; omega
    · rw [linkOf_down]; simp
    · intro q k
      dsimp only
      rw [write3_eq, linkOf_down]
      refine if_congr ?_ rfl rfl
      simp only [List.mem_cons, List.not_mem_nil, or_false]
      tauto
  · exact hInv

lemma stepRB_inv {rows cols : ℕ} {s : BState} {r c : ℤ}
    (hg : inGrid rows cols (r, c)) (hInv : BuildInv rows cols s) :
    BuildInv rows cols (stepRB cols s r c) := by
  unfold stepRB
  split
  · rename_i pR pBR h1 h2 h3
    obtain ⟨hg1, hg2, hg3, hg4⟩ := hg
    obtain ⟨hc0, hpR⟩ := anchorAR_some h2
    obtain ⟨hr1, hc1, hpBR⟩ := anchorABR_some h3
    subst hpR; subst hpBR
    refine createInv (T := ⟨none, some (r - 1, colAnchorLeft r c + 1), (r, c), (r, c + 1)⟩)
      .tRB (r, c) hInv ?_ ?_ h1 rfl ?_
    · refine Or.inr ⟨r - 1, colAnchorLeft r c + 1, rfl, rfl, ?_, ?_, by omega, by omega, ?_, ?_⟩
      · rw [colAnchorLeft_pred_right]; norm_num
      · rw [colAnchorLeft_pred_right]; norm_num
      · rw [colAnchorLeft_pred_right]; omega
      · rw [colAnchorLeft_pred_right]; omega
    · rw [linkOf_down]; simp
    · intro q k
      dsimp only
      rw [write3_eq, linkOf_down]
      refine if_congr ?_ rfl rfl
      simp only [List.mem_cons, List.not_mem_nil, or_false]
      tauto
  · exact hInv

/-- The whole loop body preserves the building invariant. -/
lemma stepCell_inv {rows cols : ℕ} {s : BState} {p : Addr}
    (hp : inGrid rows cols p) (hInv : BuildInv rows cols s) :
    BuildInv rows cols (stepCell rows cols s p) := by
  obtain ⟨r, c⟩ := p
  exact stepRB_inv hp (stepLB_inv hp (stepRT_inv hp (stepLT_inv hp
    (stepTB_inv hp (stepTT_inv hp hInv)))))

lemma mem_cells {rows cols : ℕ} {p : Addr} (hp : p ∈ cells rows cols) :
    inGrid rows cols p := by
  obtain ⟨r, c⟩ := p
  rw [cells, List.mem_flatMap] at hp
  obtain ⟨a, ha, hmem⟩ := hp
  rw [List.mem_range] at ha
  rw [List.mem_map] at hmem
  obtain ⟨b, hb, heq⟩ := hmem
  rw [List.mem_range] at hb
  rw [Prod.mk.injEq] at heq
  obtain ⟨h1, h2⟩ := heq
  subst h1; subst h2
  exact ⟨by omega, by omega, by omega, by omega⟩

/-- The building invariant holds for the final state of the creation pass. -/
lemma buildState_inv (rows cols : ℕ) : BuildInv rows cols (buildState rows cols) := by
  have h0 : BuildInv rows cols ⟨[], fun _ _ => none⟩ := by
    constructor
    · intro i t hget
      simp at hget
    · intro p k i hsl
      cases hsl
  have : ∀ (L : List Addr) (s : BState), (∀ p ∈ L, inGrid rows cols p) →
      BuildInv rows cols s → BuildInv rows cols (L.foldl (stepCell rows cols) s) := by
    intro L
    induction L with
    | nil => intro s _ h; exact h
    | cons q L ih =>
      intro s hL h
      exact ih _ (fun p hp => hL p (List.mem_cons_of_mem _ hp))
        (stepCell_inv (hL q (List.mem_cons_self _ _)) h)
  exact this (cells rows cols) _ (fun p hp => mem_cells hp) h0

/-! ## Adjacency symmetry -/

lemma colAnchorLeft_sub_two (r x : ℤ) : colAnchorLeft (r - 2) x = colAnchorLeft r x := by
  unfold colAnchorLeft
  split_ifs <;> omega

lemma resolveTri_tL_up {sl : Addr → SlotK → Option ℕ} {i : ℕ} {t : Tri0} {p : Addr}
    (h : t.aT = some p) : (resolveTri sl i t).tL = sl t.aL .tT := by
  unfold resolveTri isPointingUp
  rw [h]
  rfl

lemma resolveTri_tR_up {sl : Addr → SlotK → Option ℕ} {i : ℕ} {t : Tri0} {p : Addr}
    (h : t.aT = some p) : (resolveTri sl i t).tR = sl t.aR .tT := by
  unfold resolveTri isPointingUp
  rw [h]
  rfl

lemma back_up {sl : Addr → SlotK → Option ℕ} {i : ℕ} {t : Tri0} {p : Addr}
    (h : t.aT = some p) : triangleBack (resolveTri sl i t) = sl t.aR .tLB := by
  unfold triangleBack resolveTri isPointingUp
  simp [h]

lemma resolveTri_tL_down {sl : Addr → SlotK → Option ℕ} {i : ℕ} {t : Tri0}
    (h : t.aT = none) : (resolveTri sl i t).tL = sl t.aL .tB := by
  unfold resolveTri isPointingUp
  rw [h]
  rfl

lemma resolveTri_tR_down {sl : Addr → SlotK → Option ℕ} {i : ℕ} {t : Tri0}
    (h : t.aT = none) : (resolveTri sl i t).tR = sl t.aR .tB := by
  unfold resolveTri isPointingUp
  rw [h]
  rfl

lemma back_down {sl : Addr → SlotK → Option ℕ} {i : ℕ} {t : Tri0}
    (h : t.aT = none) : triangleBack (resolveTri sl i t) = sl t.aR .tLT := by
  unfold triangleBack resolveTri isPointingUp
  simp [h]

/-- The heart of the adjacency-symmetry claim: in any state satisfying the
building invariant, the resolved neighbor slots of any two triangles point at
each other symmetrically. -/
lemma slots_symm {rows cols : ℕ} {s : BState} (hInv : BuildInv rows cols s)
    {i j : ℕ} {t u : Tri0} (hti : s.tris.get? i = some t) (huj : s.tris.get? j = some u) :
    ((resolveTri s.slots i t).tR = some j → (resolveTri s.slots j u).tL = some i) ∧
    ((resolveTri s.slots i t).tL = some j → (resolveTri s.slots j u).tR = some i) ∧
    (triangleBack (resolveTri s.slots i t) = some j →
      triangleBack (resolveTri s.slots j u) = some i) := by
  obtain ⟨hshape, hlinked⟩ := hInv.1 i t hti
  rcases hshape with hup | hdn
  · obtain ⟨r, c, hT, hBn, hL, hR, hr1, hr2, hc1, hc2⟩ := hup
    refine ⟨?_, ?_, ?_⟩
    · intro h
      rw [resolveTri_tR_up hT] at h
      obtain ⟨u', hu', hback⟩ := hInv.2 t.aR .tT j h
      have huu : u' = u := Option.some_inj.mp (hu'.symm.trans huj)
      rw [huu] at hback
      simp only [SlotBack] at hback
      rcases (hInv.1 j u huj).1 with hupu | hdnu
      · obtain ⟨r'', c'', -, huBn, -, -, -, -, -, -⟩ := hupu
        rw [huBn] at hback
        cases hback
      · obtain ⟨r', c', huB, huT, huL, huR, -, -, -, -⟩ := hdnu
        have h2 : u.aB = some ((r : ℤ) - 1, colAnchorLeft r c + 1) := by rw [hback, hR]
        have hpair : (r', c') = ((r : ℤ) - 1, colAnchorLeft r c + 1) :=
          Option.some_inj.mp (huB.symm.trans h2)
        have hr' : r' = r - 1 := congrArg Prod.fst hpair
        have hc' : c' = colAnchorLeft r c + 1 := congrArg Prod.snd hpair
        rw [resolveTri_tL_down huT, huL, hr', hc', colAnchorLeft_pred_right]
        have hfix : ((r : ℤ) - 1 + 1, c) = (r, c) := by norm_num
        rw [hfix]
        exact hlinked (.tB, (r, c)) (by rw [linkOf_of_aT hT]; simp)
    · intro h
      rw [resolveTri_tL_up hT] at h
      obtain ⟨u', hu', hback⟩ := hInv.2 t.aL .tT j h
      have huu : u' = u := Option.some_inj.mp (hu'.symm.trans huj)
      rw [huu] at hback
      simp only [SlotBack] at hback
      rcases (hInv.1 j u huj).1 with hupu | hdnu
      · obtain ⟨r'', c'', -, huBn, -, -, -, -, -, -⟩ := hupu
        rw [huBn] at hback
        cases hback
      · obtain ⟨r', c', huB, huT, huL, huR, -, -, -, -⟩ := hdnu
        have h2 : u.aB = some ((r : ℤ) - 1, colAnchorLeft r c) := by rw [hback, hL]
        have hpair : (r', c') = ((r : ℤ) - 1, colAnchorLeft r c) :=
          Option.some_inj.mp (huB.symm.trans h2)
        have hr' : r' = r - 1 := congrArg Prod.fst hpair
        have hc' : c' = colAnchorLeft r c := congrArg Prod.snd hpair
        rw [resolveTri_tR_down huT, huR, hr', hc', colAnchorLeft_pred_left]
        have hfix : ((r : ℤ) - 1 + 1, c - 1 + 1) = (r, c) := by
          rw [Prod.mk.injEq]
          constructor <;> ring
        rw [hfix]
        exact hlinked (.tB, (r, c)) (by rw [linkOf_of_aT hT]; simp)
    · intro h
      rw [back_up hT] at h
      obtain ⟨u', hu', hback⟩ := hInv.2 t.aR .tLB j h
      have huu : u' = u := Option.some_inj.mp (hu'.symm.trans huj)
      rw [huu] at hback
      simp only [SlotBack] at hback
      have huT : u.aT = none := by
        rcases (hInv.1 j u huj).1 with hupu | hdnu
        · obtain ⟨r'', c'', -, huBn, -, -, -, -, -, -⟩ := hupu
          rw [huBn] at hback
          simp at hback
        · obtain ⟨r', c', -, huT, -, -, -, -, -, -⟩ := hdnu
          exact huT
      rw [back_down huT, hback.2]
      exact hlinked (.tLT, t.aR) (by rw [linkOf_of_aT hT]; simp)
  · obtain ⟨r, c, hB, hT, hL, hR, hr1, hr2, hc1, hc2⟩ := hdn
    refine ⟨?_, ?_, ?_⟩
    · intro h
      rw [resolveTri_tR_down hT] at h
      obtain ⟨u', hu', hback⟩ := hInv.2 t.aR .tB j h
      have huu : u' = u := Option.some_inj.mp (hu'.symm.trans huj)
      rw [huu] at hback
      simp only [SlotBack] at hback
      rcases (hInv.1 j u huj).1 with hupu | hdnu
      · obtain ⟨r', c', huT, huBn, huL, huR, -, -, -, -⟩ := hupu
        have h2 : u.aT = some ((r : ℤ) + 1, colAnchorLeft r c + 1) := by rw [hback, hR]
        have hpair : (r', c') = ((r : ℤ) + 1, colAnchorLeft r c + 1) :=
          Option.some_inj.mp (huT.symm.trans h2)
        have hr' : r' = r + 1 := congrArg Prod.fst hpair
        have hc' : c' = colAnchorLeft r c + 1 := congrArg Prod.snd hpair
        rw [resolveTri_tL_up huT, huL, hr', hc', colAnchorLeft_succ_right]
        have hfix : ((r : ℤ) + 1 - 1, c) = (r, c) := by norm_num
        rw [hfix]
        exact hlinked (.tT, (r, c)) (by rw [linkOf_of_aB hT hB]; simp)
      · obtain ⟨r', c', -, huTn, -, -, -, -, -, -⟩ := hdnu
        rw [huTn] at hback
        cases hback
    · intro h
      rw [resolveTri_tL_down hT] at h
      obtain ⟨u', hu', hback⟩ := hInv.2 t.aL .tB j h
      have huu : u' = u := Option.some_inj.mp (hu'.symm.trans huj)
      rw [huu] at hback
      simp only [SlotBack] at hback
      rcases (hInv.1 j u huj).1 with hupu | hdnu
      · obtain ⟨r', c', huT, huBn, huL, huR, -, -, -, -⟩ := hupu
        have h2 : u.aT = some ((r : ℤ) + 1, colAnchorLeft r c) := by rw [hback, hL]
        have hpair : (r', c') = ((r : ℤ) + 1, colAnchorLeft r c) :=
          Option.some_inj.mp (huT.symm.trans h2)
        have hr' : r' = r + 1 := congrArg Prod.fst hpair
        have hc' : c' = colAnchorLeft r c := congrArg Prod.snd hpair
        rw [resolveTri_tR_up huT, huR, hr', hc', colAnchorLeft_succ_left]
        have hfix : ((r : ℤ) + 1 - 1, c - 1 + 1) = (r, c) := by
          rw [Prod.mk.injEq]
          constructor <;> ring
        rw [hfix]
        exact hlinked (.tT, (r, c)) (by rw [linkOf_of_aB hT hB]; simp)
      · obtain ⟨r', c', -, huTn, -, -, -, -, -, -⟩ := hdnu
        rw [huTn] at hback
        cases hback
    · intro h
      rw [back_down hT] at h
      obtain ⟨u', hu', hback⟩ := hInv.2 t.aR .tLT j h
      have huu : u' = u := Option.some_inj.mp (hu'.symm.trans huj)
      rw [huu] at hback
      simp only [SlotBack] at hback
      obtain ⟨p, hp⟩ := Option.isSome_iff_exists.mp hback.1
      rw [back_up hp, hback.2]
      exact hlinked (.tLB, t.aR) (by rw [linkOf_of_aB hT hB]; simp)

lemma resolveAll_get? (sl : Addr → SlotK → Option ℕ) :
    ∀ (l : List Tri0) (i0 j : ℕ),
      (resolveAll sl i0 l).get? j = (l.get? j).map fun t => resolveTri sl (i0 + j) t := by
  intro l
  induction l with
  | nil => intro i0 j; simp [resolveAll]
  | cons t ts ih =>
    intro i0 j
    cases j with
    | zero => simp [resolveAll]
    | succ j =>
      show (resolveAll sl (i0 + 1) ts).get? j = _
      rw [ih]
      have hidx : i0 + 1 + j = i0 + (j + 1) := by omega
      rw [hidx]
      rfl

lemma genTriangles_get? (rows cols : ℕ) (j : ℕ) :
    (genTriangles rows cols).get? j =
      ((buildState rows cols).tris.get? j).map
        fun t => resolveTri (buildState rows cols).slots j t := by
  unfold genTriangles
  rw [resolveAll_get?]
  simp

/-- C1: triangle adjacency produced by `genTriangles` is symmetric: for all
`rows, cols ≥ 2`, whenever triangle `A` of the returned list reaches triangle
`B` through its `tR` slot, `B` reaches `A` back through its `tL` slot (and vice
versa), and whenever `A` reaches `B` through its back slot (`tB` for an
up-pointing, `tT` for a down-pointing triangle), `B` reaches `A` back through
its own back slot. -/
theorem genTriangles_adjacency_symm (rows cols : ℕ) (hrows : 2 ≤ rows) (hcols : 2 ≤ cols)
    (i j : ℕ) (A B : Tri) (hA : (genTriangles rows cols).get? i = some A)
    (hB : (genTriangles rows cols).get? j = some B) :
    (A.tR = some j → B.tL = some i) ∧ (A.tL = some j → B.tR = some i) ∧
    (triangleBack A = some j → triangleBack B = some i) := by
  rw [genTriangles_get?] at hA hB
  obtain ⟨t, hti, hAeq⟩ := Option.map_eq_some'.mp hA
  obtain ⟨u, huj, hBeq⟩ := Option.map_eq_some'.mp hB
  subst hAeq
  subst hBeq
  exact slots_symm (buildState_inv rows cols) hti huj

/-- Witness for C1 on the concrete 2×2 lattice: its two triangles point at each
other through `tR`/`tL`. -/
theorem genTriangles_adjacency_symm_witness :
    (genTriangles 2 2).get? 0 =
      some ⟨⟨some (1, 0), none, (0, 0), (0, 1)⟩, 0, none, some 1, none, none⟩ ∧
    (genTriangles 2 2).get? 1 =
      some ⟨⟨none, some (0, 1), (1, 0), (1, 1)⟩, 1, some 0, none, none, none⟩ ∧
    (⟨⟨none, some (0, 1), (1, 0), (1, 1)⟩, 1, some 0, none, none, none⟩ : Tri).tL = some 0 := by
  refine ⟨by decide, by decide, ?_⟩
  exact (genTriangles_adjacency_symm 2 2 (by norm_num) (by norm_num) 0 1
    ⟨⟨some (1, 0), none, (0, 0), (0, 1)⟩, 0, none, some 1, none, none⟩
    ⟨⟨none, some (0, 1), (1, 0), (1, 1)⟩, 1, some 0, none, none, none⟩
    (by decide) (by decide)).1 (by decide)

/-! ## Completeness: every slot whose triangle exists is eventually populated -/

/-- The guard of the Top-triangle branch at an anchor: both upper diagonal
neighbors exist. -/
def downValidAt (rows cols : ℕ) (p : Addr) : Prop :=
  (anchorATL rows p.1 p.2).isSome = true ∧ (anchorATR rows cols p.1 p.2).isSome = true

/-- The guard of the Bottom-triangle branch at an anchor: both lower diagonal
neighbors exist. -/
def upValidAt (cols : ℕ) (p : Addr) : Prop :=
  (anchorABL p.1 p.2).isSome = true ∧ (anchorABR cols p.1 p.2).isSome = true

lemma stepTT_slots_mono {rows cols : ℕ} {s : BState} {r c : ℤ} {q : Addr} {k : SlotK}
    (h : (s.slots q k).isSome) : ((stepTT rows cols s r c).slots q k).isSome := by
  unfold stepTT
  split
  · dsimp only
    rw [write3_eq]
    split_ifs
    · simp
    · exact h
  · exact h

lemma stepTB_slots_mono {cols : ℕ} {s : BState} {r c : ℤ} {q : Addr} {k : SlotK}
    (h : (s.slots q k).isSome) : ((stepTB cols s r c).slots q k).isSome := by
  unfold stepTB
  split
  · dsimp only
    rw [write3_eq]
    split_ifs
    · simp
    · exact h
  · exact h

lemma stepLT_slots_mono {rows : ℕ} {s : BState} {r c : ℤ} {q : Addr} {k : SlotK}
    (h : (s.slots q k).isSome) : ((stepLT rows s r c).slots q k).isSome := by
  unfold stepLT
  split
  · dsimp only
    rw [write3_eq]
    split_ifs
    · simp
    · exact h
  · exact h

lemma stepRT_slots_mono {rows cols : ℕ} {s : BState} {r c : ℤ} {q : Addr} {k : SlotK}
    (h : (s.slots q k).isSome) : ((stepRT rows cols s r c).slots q k).isSome := by
  unfold stepRT
  split
  · dsimp only
    rw [write3_eq]
    split_ifs
    · simp
    · exact h
  · exact h

lemma stepLB_slots_mono {s : BState} {r c : ℤ} {q : Addr} {k : SlotK}
    (h : (s.slots q k).isSome) : ((stepLB s r c).slots q k).isSome := by
  unfold stepLB
  split
  · dsimp only
    rw [write3_eq]
    split_ifs
    · simp
    · exact h
  · exact h

lemma stepRB_slots_mono {cols : ℕ} {s : BState} {r c : ℤ} {q : Addr} {k : SlotK}
    (h : (s.slots q k).isSome) : ((stepRB cols s r c).slots q k).isSome := by
  unfold stepRB
  split
  · dsimp only
    rw [write3_eq]
    split_ifs
    · simp
    · exact h
  · exact h

lemma stepCell_slots_mono {rows cols : ℕ} {s : BState} {p : Addr} {q : Addr} {k : SlotK}
    (h : (s.slots q k).isSome) : ((stepCell rows cols s p).slots q k).isSome :=
  stepRB_slots_mono (stepLB_slots_mono (stepRT_slots_mono (stepLT_slots_mono
    (stepTB_slots_mono (stepTT_slots_mono h)))))

lemma foldl_slots_mono {rows cols : ℕ} {q : Addr} {k : SlotK} :
    ∀ (L : List Addr) (s : BState), (s.slots q k).isSome →
      ((L.foldl (stepCell rows cols) s).slots q k).isSome := by
  intro L
  induction L with
  | nil => intro s h; exact h
  | cons p L ih => intro s h; exact ih _ (stepCell_slots_mono h)

lemma stepTT_estab {rows cols : ℕ} {s : BState} {r c : ℤ}
    (h : downValidAt rows cols (r, c)) : ((stepTT rows cols s r c).slots (r, c) .tT).isSome := by
  obtain ⟨h1, h2⟩ := h
  obtain ⟨pTL, hpTL⟩ := Option.isSome_iff_exists.mp h1
  obtain ⟨pTR, hpTR⟩ := Option.isSome_iff_exists.mp h2
  unfold stepTT
  rcases hslot : s.slots (r, c) .tT with _ | n
  · rw [hpTL, hpTR]
    dsimp only
    rw [write3_eq]
    rw [if_pos (by simp)]
    simp
  · rw [hpTL, hpTR]
    dsimp only
    rw [hslot]
    simp

lemma stepTB_estab {cols : ℕ} {s : BState} {r c : ℤ}
    (h : upValidAt cols (r, c)) : ((stepTB cols s r c).slots (r, c) .tB).isSome := by
  obtain ⟨h1, h2⟩ := h
  obtain ⟨pBL, hpBL⟩ := Option.isSome_iff_exists.mp h1
  obtain ⟨pBR, hpBR⟩ := Option.isSome_iff_exists.mp h2
  unfold stepTB
  rcases hslot : s.slots (r, c) .tB with _ | n
  · rw [hpBL, hpBR]
    dsimp only
    rw [write3_eq]
    rw [if_pos (by simp)]
    simp
  · rw [hpBL, hpBR]
    dsimp only
    rw [hslot]
    simp

lemma stepCell_estab_tT {rows cols : ℕ} {s : BState} {p : Addr}
    (h : downValidAt rows cols p) : ((stepCell rows cols s p).slots p .tT).isSome := by
  obtain ⟨r, c⟩ := p
  exact stepRB_slots_mono (stepLB_slots_mono (stepRT_slots_mono (stepLT_slots_mono
    (stepTB_slots_mono (stepTT_estab h)))))

lemma stepCell_estab_tB {rows cols : ℕ} {s : BState} {p : Addr}
    (h : upValidAt cols p) : ((stepCell rows cols s p).slots p .tB).isSome := by
  obtain ⟨r, c⟩ := p
  exact stepRB_slots_mono (stepLB_slots_mono (stepRT_slots_mono (stepLT_slots_mono
    (stepTB_estab h))))

/-- After the creation pass: any anchor of the traversal whose Top (resp.
Bottom) triangle guard holds has that slot populated. -/
lemma buildState_complete {rows cols : ℕ} {p : Addr} (hp : p ∈ cells rows cols) :
    (downValidAt rows cols p → ((buildState rows cols).slots p .tT).isSome) ∧
    (upValidAt cols p → ((buildState rows cols).slots p .tB).isSome) := by
  have key : ∀ (L : List Addr) (s0 : BState), p ∈ L →
      (downValidAt rows cols p → ((L.foldl (stepCell rows cols) s0).slots p .tT).isSome) ∧
      (upValidAt cols p → ((L.foldl (stepCell rows cols) s0).slots p .tB).isSome) := by
    intro L
    induction L with
    | nil => intro s0 hp0; cases hp0
    | cons q L ih =>
      intro s0 hp0
      rcases List.mem_cons.mp hp0 with rfl | hp'
      · exact ⟨fun hd => foldl_slots_mono L _ (stepCell_estab_tT hd),
          fun hu => foldl_slots_mono L _ (stepCell_estab_tB hu)⟩
      · exact ih _ hp'
  exact key (cells rows cols) _ hp

lemma inGrid_mem_cells {rows cols : ℕ} {p : Addr} (h : inGrid rows cols p) :
    p ∈ cells rows cols := by
  obtain ⟨r, c⟩ := p
  obtain ⟨h1, h2, h3, h4⟩ := h
  rw [cells, List.mem_flatMap]
  refine ⟨r.toNat, ?_, ?_⟩
  · rw [List.mem_range]; omega
  · rw [List.mem_map]
    refine ⟨c.toNat, ?_, ?_⟩
    · rw [List.mem_range]; omega
    · rw [Prod.mk.injEq]
      constructor <;> omega

/-! ## Every triangle of the lattice has a populated `tL` or `tR` neighbor -/

lemma anchorATL_isSome_of {rows : ℕ} {r c : ℤ} (h1 : r < (rows : ℤ) - 1)
    (h2 : 0 ≤ colAnchorLeft r c) : (anchorATL rows r c).isSome = true := by
  unfold anchorATL
  rw [if_pos ⟨h1, h2⟩]
  rfl

lemma anchorATR_isSome_of {rows cols : ℕ} {r c : ℤ} (h1 : r < (rows : ℤ) - 1)
    (h2 : colAnchorRight r c < (cols : ℤ)) : (anchorATR rows cols r c).isSome = true := by
  unfold anchorATR
  rw [if_pos ⟨h1, h2⟩]
  rfl

lemma anchorABL_isSome_of {r c : ℤ} (h1 : 0 < r) (h2 : 0 ≤ colAnchorLeft r c) :
    (anchorABL r c).isSome = true := by
  unfold anchorABL
  rw [if_pos ⟨h1, h2⟩]
  rfl

lemma anchorABR_isSome_of {cols : ℕ} {r c : ℤ} (h1 : 0 < r)
    (h2 : colAnchorRight r c < (cols : ℤ)) : (anchorABR cols r c).isSome = true := by
  unfold anchorABR
  rw [if_pos ⟨h1, h2⟩]
  rfl

/-- Every triangle of the creation pass resolves to at least one populated
side neighbor (`tL` or `tR`): the lattice has no isolated triangle. -/
lemma neighbor_exists {rows cols : ℕ} {i : ℕ} {t : Tri0}
    (hti : (buildState rows cols).tris.get? i = some t) :
    (resolveTri (buildState rows cols).slots i t).tL ≠ none ∨
    (resolveTri (buildState rows cols).slots i t).tR ≠ none := by
  have hInv := buildState_inv rows cols
  rcases (hInv.1 i t hti).1 with hup | hdn
  · obtain ⟨r, c, hT, hBn, hL, hR, hr1, hr2, hc1, hc2⟩ := hup
    rcases Int.emod_two_eq r with hpar | hpar
    · -- even tip row: the base row below is odd; the left (`tL`) neighbor exists
      left
      rw [resolveTri_tL_up hT, hL]
      have hcaL : colAnchorLeft r c = c - 1 := by unfold colAnchorLeft; rw [if_pos hpar]
      have hmem : ((r : ℤ) - 1, colAnchorLeft r c) ∈ cells rows cols :=
        inGrid_mem_cells ⟨by omega, by omega, by omega, by omega⟩
      have hvalid : downValidAt rows cols ((r : ℤ) - 1, colAnchorLeft r c) := by
        refine ⟨anchorATL_isSome_of (by omega) ?_, anchorATR_isSome_of (by omega) ?_⟩
        · rw [colAnchorLeft_pred_left]; omega
        · rw [colAnchorRight_eq, colAnchorLeft_pred_left]; omega
      exact Option.isSome_iff_ne_none.mp ((buildState_complete hmem).1 hvalid)
    · -- odd tip row: the right (`tR`) neighbor exists
      right
      rw [resolveTri_tR_up hT, hR]
      have hcaL : colAnchorLeft r c = c := by
        unfold colAnchorLeft; rw [if_neg (by omega)]
      have hmem : ((r : ℤ) - 1, colAnchorLeft r c + 1) ∈ cells rows cols :=
        inGrid_mem_cells ⟨by omega, by omega, by omega, by omega⟩
      have hvalid : downValidAt rows cols ((r : ℤ) - 1, colAnchorLeft r c + 1) := by
        refine ⟨anchorATL_isSome_of (by omega) ?_, anchorATR_isSome_of (by omega) ?_⟩
        · rw [colAnchorLeft_pred_right]; omega
        · rw [colAnchorRight_eq, colAnchorLeft_pred_right]; omega
      exact Option.isSome_iff_ne_none.mp ((buildState_complete hmem).1 hvalid)
  · obtain ⟨r, c, hB, hT, hL, hR, hr1, hr2, hc1, hc2⟩ := hdn
    rcases Int.emod_two_eq r with hpar | hpar
    · left
      rw [resolveTri_tL_down hT, hL]
      have hcaL : colAnchorLeft r c = c - 1 := by unfold colAnchorLeft; rw [if_pos hpar]
      have hmem : ((r : ℤ) + 1, colAnchorLeft r c) ∈ cells rows cols :=
        inGrid_mem_cells ⟨by omega, by omega, by omega, by omega⟩
      have hvalid : upValidAt cols ((r : ℤ) + 1, colAnchorLeft r c) := by
        refine ⟨anchorABL_isSome_of (by omega) ?_, anchorABR_isSome_of (by omega) ?_⟩
        · rw [colAnchorLeft_succ_left]; omega
        · rw [colAnchorRight_eq, colAnchorLeft_succ_left]; omega
      exact Option.isSome_iff_ne_none.mp ((buildState_complete hmem).2 hvalid)
    · right
      rw [resolveTri_tR_down hT, hR]
      have hcaL : colAnchorLeft r c = c := by
        unfold colAnchorLeft; rw [if_neg (by omega)]
      have hmem : ((r : ℤ) + 1, colAnchorLeft r c + 1) ∈ cells rows cols :=
        inGrid_mem_cells ⟨by omega, by omega, by omega, by omega⟩
      have hvalid : upValidAt cols ((r : ℤ) + 1, colAnchorLeft r c + 1) := by
        refine ⟨anchorABL_isSome_of (by omega) ?_, anchorABR_isSome_of (by omega) ?_⟩
        · rw [colAnchorLeft_succ_right]; omega
        · rw [colAnchorRight_eq, colAnchorLeft_succ_right]; omega
      exact Option.isSome_iff_ne_none.mp ((buildState_complete hmem).2 hvalid)

/-! ## Weighted selection -/

lemma pick_cumulative_isSome :
    ∀ (ws : List ℚ) (acc r : ℚ), acc ≤ r → r < acc + ws.sum →
      (pickFirst r (cumulative acc ws)).isSome := by
  intro ws
  induction ws with
  | nil =>
    intro acc r h1 h2
    simp only [List.sum_nil, add_zero] at h2
    linarith
  | cons w t ih =>
    intro acc r h1 h2
    unfold cumulative pickFirst
    split_ifs with hlt
    · simp
    · have hge : acc + w ≤ r := not_lt.mp hlt
      have h2' : r < (acc + w) + t.sum := by
        rw [List.sum_cons] at h2
        linarith
      simpa using ih (acc + w) r hge h2'

lemma pickFirst_spec :
    ∀ (ws : List ℚ) (acc r : ℚ), acc ≤ r → (∀ w ∈ ws, 0 ≤ w) → r < acc + ws.sum →
      ∃ i, pickFirst r (cumulative acc ws) = some i ∧ i < ws.length ∧
        r < acc + (ws.take (i + 1)).sum ∧
        (∀ j, j < i → acc + (ws.take (j + 1)).sum ≤ r) ∧
        0 < ws.getD i 0 := by
  intro ws
  induction ws with
  | nil =>
    intro acc r h1 h0 h2
    simp only [List.sum_nil, add_zero] at h2
    linarith
  | cons w t ih =>
    intro acc r h1 h0 h2
    by_cases hlt : r < acc + w
    · refine ⟨0, ?_, by simp, ?_, ?_, ?_⟩
      · unfold cumulative pickFirst
        rw [if_pos hlt]
      · simpa using hlt
      · intro j hj
        omega
      · have h0w : 0 ≤ w := h0 w (List.mem_cons_self _ _)
        simp only [List.getD_cons_zero]
        linarith
    · have hge : acc + w ≤ r := not_lt.mp hlt
      have h2' : r < (acc + w) + t.sum := by
        rw [List.sum_cons] at h2
        linarith
      obtain ⟨i, hpick, hlen, hup, hdown, hpos⟩ :=
        ih (acc + w) r hge (fun x hx => h0 x (List.mem_cons_of_mem _ hx)) h2'
      refine ⟨i + 1, ?_, by simpa using hlen, ?_, ?_, ?_⟩
      · unfold cumulative pickFirst
        rw [if_neg hlt, hpick]
        rfl
      · have htake : (List.take (i + 1 + 1) (w :: t)).sum = w + (List.take (i + 1) t).sum := by
          simp [List.take_succ_cons]
        rw [htake]
        linarith
      · intro j hj
        cases j with
        | zero =>
          simpa using hge
        | succ j' =>
          have := hdown j' (by omega)
          have htake : (List.take (j' + 1 + 1) (w :: t)).sum =
              w + (List.take (j' + 1) t).sum := by
            simp [List.take_succ_cons]
          rw [htake]
          linarith
      · simpa using hpos

/-- C3: the weighted selection over candidates with non-negative weights and a
draw `r` in `[0, total)` picks exactly the first candidate in list order whose
running cumulative weight strictly exceeds `r`; in particular the selected
candidate's own weight is positive, so a zero-weight (missing-neighbor)
candidate is never selected. -/
theorem selection_picks_first_positive (ws : List ℚ) (r : ℚ)
    (h0 : ∀ w ∈ ws, 0 ≤ w) (h1 : 0 ≤ r) (h2 : r < ws.sum) :
    ∃ i, selectedIndex ws r = some i ∧ i < ws.length ∧
      r < (ws.take (i + 1)).sum ∧
      (∀ j, j < i → (ws.take (j + 1)).sum ≤ r) ∧
      0 < ws.getD i 0 := by
  obtain ⟨i, hpick, hlen, hup, hdown, hpos⟩ :=
    pickFirst_spec ws 0 r h1 h0 (by simpa using h2)
  refine ⟨i, ?_, hlen, by simpa using hup, ?_, hpos⟩
  · unfold selectedIndex
    exact hpick
  · intro j hj
    have := hdown j hj
    simpa using this

/-- Witness for C3: weights `[20, 1, 2]` with draw `20` select index 1 (the
first whose cumulative sum `21` exceeds the draw), whose weight `1` is
positive. -/
theorem selection_picks_first_positive_witness :
    (∀ w ∈ ([20, 1, 2] : List ℚ), 0 ≤ w) ∧ (0 : ℚ) ≤ 20 ∧ (20 : ℚ) < ([20, 1, 2] : List ℚ).sum ∧
    ∃ i, selectedIndex ([20, 1, 2] : List ℚ) 20 = some i ∧ i < 3 ∧
      (20 : ℚ) < (([20, 1, 2] : List ℚ).take (i + 1)).sum ∧
      (∀ j, j < i → ((([20, 1, 2] : List ℚ).take (j + 1)).sum ≤ (20 : ℚ))) ∧
      0 < ([20, 1, 2] : List ℚ).getD i 0 := by
  refine ⟨by norm_num, by norm_num, by norm_num, ?_⟩
  exact selection_picks_first_positive [20, 1, 2] 20 (by norm_num) (by norm_num) (by norm_num)

/-! ## C6: no dead ends -/

lemma baseFavour_pos (j : ℕ) (prev : Option ℕ) (fading : List ℕ) :
    1 ≤ baseFavour (some j) prev fading := by
  simp only [baseFavour]
  split_ifs <;> omega

/-- C6: on a lattice with `rows, cols ≥ 2`, every triangle of `genTriangles`
has at least one populated neighbor among `tL`, `tR` and its back slot; hence
for any previous-triangle and fading-set state the total favour weight of a
head on that triangle is at least 1, and the weighted selection returns a
candidate for every draw in `[0, total)` — the no-candidate branch is
unreachable. -/
theorem head_candidates_never_empty (rows cols : ℕ) (hrows : 2 ≤ rows) (hcols : 2 ≤ cols)
    (i : ℕ) (t : Tri) (ht : (genTriangles rows cols).get? i = some t) :
    (t.tL ≠ none ∨ t.tR ≠ none ∨ triangleBack t ≠ none) ∧
    ∀ (prev : Option ℕ) (fading : List ℕ),
      1 ≤ totalFavour t prev fading ∧
      ∀ r : ℚ, 0 ≤ r → r < (totalFavour t prev fading : ℚ) →
        (selectedIndex ((nextFavours t prev fading).map fun n : ℕ => (n : ℚ)) r).isSome := by
  rw [genTriangles_get?] at ht
  obtain ⟨t0, ht0, hteq⟩ := Option.map_eq_some'.mp ht
  have hside := neighbor_exists ht0
  subst hteq
  have hside' : (resolveTri (buildState rows cols).slots i t0).tL ≠ none ∨
      (resolveTri (buildState rows cols).slots i t0).tR ≠ none ∨
      triangleBack (resolveTri (buildState rows cols).slots i t0) ≠ none := by
    rcases hside with h | h
    · exact Or.inl h
    · exact Or.inr (Or.inl h)
  refine ⟨hside', ?_⟩
  intro prev fading
  have htot : 1 ≤ totalFavour (resolveTri (buildState rows cols).slots i t0) prev fading := by
    unfold totalFavour nextFavours neighborSlots
    rcases hside with h | h
    · obtain ⟨j, hj⟩ := Option.ne_none_iff_exists'.mp h
      rw [hj]
      simp only [List.map_cons, List.sum_cons]
      have := baseFavour_pos j prev fading
      omega
    · obtain ⟨j, hj⟩ := Option.ne_none_iff_exists'.mp h
      rw [hj]
      simp only [List.map_cons, List.sum_cons]
      have := baseFavour_pos j prev fading
      omega
  refine ⟨htot, ?_⟩
  intro r hr0 hrlt
  have hsum : ((nextFavours (resolveTri (buildState rows cols).slots i t0) prev fading).map
      fun n : ℕ => (n : ℚ)).sum = ((totalFavour (resolveTri (buildState rows cols).slots i t0)
        prev fading : ℕ) : ℚ) := by
    unfold totalFavour
    rw [Nat.cast_list_sum]
  apply pick_cumulative_isSome _ 0 r hr0
  rw [zero_add, hsum]
  exact hrlt

/-- Witness for C6 on the 2×2 lattice: triangle 0 has `tR` populated, total
favour 20 in the fresh state, and the draw `10` selects a candidate. -/
theorem head_candidates_never_empty_witness :
    ((⟨⟨some (1, 0), none, (0, 0), (0, 1)⟩, 0, none, some 1, none, none⟩ : Tri).tL ≠ none ∨
      (⟨⟨some (1, 0), none, (0, 0), (0, 1)⟩, 0, none, some 1, none, none⟩ : Tri).tR ≠ none ∨
      triangleBack (⟨⟨some (1, 0), none, (0, 0), (0, 1)⟩, 0, none, some 1, none, none⟩ : Tri)
        ≠ none) ∧
    1 ≤ totalFavour ⟨⟨some (1, 0), none, (0, 0), (0, 1)⟩, 0, none, some 1, none, none⟩ none [] ∧
    (selectedIndex ((nextFavours
      ⟨⟨some (1, 0), none, (0, 0), (0, 1)⟩, 0, none, some 1, none, none⟩ none []).map
        fun n : ℕ => (n : ℚ)) 10).isSome := by
  have h := head_candidates_never_empty 2 2 (by norm_num) (by norm_num) 0
    ⟨⟨some (1, 0), none, (0, 0), (0, 1)⟩, 0, none, some 1, none, none⟩ (by decide)
  refine ⟨h.1, (h.2 none []).1, (h.2 none []).2 10 (by norm_num) ?_⟩
  have htot : totalFavour
      ⟨⟨some (1, 0), none, (0, 0), (0, 1)⟩, 0, none, some 1, none, none⟩ none [] = 20 := by
    decide
  rw [htot]
  norm_num

/-! ## C2: favour weights -/

/-- C2: the favour weight a tick assigns to each candidate neighbor slot of a
head's triangle, in candidate order `[tL, tR, back]`, is exactly: 0 for an
absent neighbor; 1 for the head's immediately-previous triangle; 2 for a
member of the fading set other than the previous triangle; 20 otherwise. -/
theorem favour_weights_spec (t : Tri) (prev : Option ℕ) (fading : List ℕ) :
    nextFavours t prev fading =
      [baseFavour t.tL prev fading, baseFavour t.tR prev fading,
        baseFavour (triangleBack t) prev fading] ∧
    ∀ nb : Option ℕ,
      (nb = none → baseFavour nb prev fading = 0) ∧
      ∀ j, nb = some j →
        (prev = some j → baseFavour nb prev fading = 1) ∧
        (prev ≠ some j → j ∈ fading → baseFavour nb prev fading = 2) ∧
        (prev ≠ some j → j ∉ fading → baseFavour nb prev fading = 20) := by
  refine ⟨rfl, ?_⟩
  intro nb
  constructor
  · intro h
    subst h
    rfl
  · intro j h
    subst h
    refine ⟨?_, ?_, ?_⟩
    · intro h1
      simp [baseFavour, h1]
    · intro h1 h2
      simp [baseFavour, h1, h2]
    · intro h1 h2
      simp [baseFavour, h1, h2]

/-- Witness for C2 at concrete inputs: one value per case of the weight rule. -/
theorem favour_weights_spec_witness :
    baseFavour none (some 5) [3] = 0 ∧ baseFavour (some 5) (some 5) [3] = 1 ∧
    baseFavour (some 3) (some 5) [3] = 2 ∧ baseFavour (some 7) (some 5) [3] = 20 := by
  have h := favour_weights_spec
    ⟨⟨some (1, 0), none, (0, 0), (0, 1)⟩, 0, none, some 1, none, none⟩ (some 5) [3]
  exact ⟨(h.2 none).1 rfl, ((h.2 (some 5)).2 5 rfl).1 rfl,
    ((h.2 (some 3)).2 3 rfl).2.1 (by decide) (by decide),
    ((h.2 (some 7)).2 7 rfl).2.2 (by decide) (by decide)⟩

/-! ## C5: degenerate dimensions crash the builder -/

/-- C5 (code bug): for `rows = 0` or `cols = 0` the builder does not return a
degenerate empty lattice — util.ts 206 reads `anchors[rows - 1][cols - 1].x`,
the indexing yields `undefined` on an empty grid and the `.x` access throws a
TypeError (modelled as `none`); with `rows = cols = 1` the read succeeds and an
empty triangle list is returned. -/
theorem genTrianglesRun_zero_crashes :
    genTrianglesRun 0 2 = none ∧ genTrianglesRun 2 0 = none ∧
    genTrianglesRun 1 1 = some (genTriangles 1 1) ∧ genTriangles 1 1 = [] := by
  exact ⟨by decide, by decide, by decide, by decide⟩

/-! ## C7 and C8: the fade model and the fade sweep -/

lemma animateColor_lightness_nonneg (c : ColorHSL) : 0 ≤ (animateColor c).l := by
  simp only [animateColor]
  split_ifs
  · simp [blackColor]
  · simp only [offsetHSL, clamp01]
    exact le_max_left _ _

lemma animateColor_lightness_le (c : ColorHSL) (h : 0 ≤ c.l) : (animateColor c).l ≤ c.l := by
  simp only [animateColor]
  split_ifs
  · simpa [blackColor] using h
  · simp only [offsetHSL, clamp01]
    refine max_le h (le_trans (min_le_left _ _) ?_)
    unfold fadeInc
    linarith

/-- C7 (code bug): the fade step itself darkens the color and, on the tick its
lightness falls below the threshold, snaps it exactly to black — but the same
tick's sweep throws a TypeError at `anim.getPositions()` (the method does not
exist on `AnimatedTriangle`) before the faded entry can be removed from the
fading set. -/
theorem fade_snaps_but_sweep_throws :
    animateColor ⟨0, 7 / 10, 3 / 2000⟩ = ⟨0, 0, 0⟩ ∧
    colorIsFaded (animateColor ⟨0, 7 / 10, 3 / 2000⟩) = true ∧
    fadeSweep [(0, ⟨0, 0, ⟨0, 7 / 10, 3 / 2000⟩⟩)] =
      Except.error "TypeError: anim.getPositions is not a function" := by
  refine ⟨?_, ?_, rfl⟩
  · norm_num [animateColor, offsetHSL, clamp01, wrapHue, colorIsFaded, fadeInc, blackColor,
      ColorHSL.mk.injEq]
  · norm_num [animateColor, offsetHSL, clamp01, wrapHue, colorIsFaded, fadeInc, blackColor]

/-- C8 (code bug): any tick whose fading set is non-empty throws a TypeError
out of the fade sweep: `anim.getPositions` is not a member of
`AnimatedTriangle`, so the sweep never completes. -/
theorem fade_sweep_always_throws (k : ℕ) (a : AnimatedTriangle)
    (rest : List (ℕ × AnimatedTriangle)) :
    fadeSweep ((k, a) :: rest) =
      Except.error "TypeError: anim.getPositions is not a function" := rfl

/-! ## C9: the 3×3 end-to-end scenario -/

lemma triPosition_length (d p : ℝ) (t : Tri0) : (triPosition d p t).length = 9 := by
  unfold triPosition
  split_ifs <;> rfl

lemma resolveAllGeo_get? (rows cols : ℕ) (d p : ℝ) (sl : Addr → SlotK → Option ℕ) :
    ∀ (l : List Tri0) (i0 j : ℕ),
      (resolveAllGeo rows cols d p sl i0 l).get? j =
        (l.get? j).map fun t => resolveGeo rows cols d p sl (i0 + j) t := by
  intro l
  induction l with
  | nil => intro i0 j; simp [resolveAllGeo]
  | cons t ts ih =>
    intro i0 j
    cases j with
    | zero => simp [resolveAllGeo]
    | succ j =>
      show (resolveAllGeo rows cols d p sl (i0 + 1) ts).get? j = _
      rw [ih]
      have hidx : i0 + 1 + j = i0 + (j + 1) := by omega
      rw [hidx]
      rfl

lemma genTrianglesGeo_get? (rows cols : ℕ) (d p : ℝ) (j : ℕ) :
    (genTrianglesGeo rows cols d p).get? j =
      ((buildState rows cols).tris.get? j).map
        fun t => resolveGeo rows cols d p (buildState rows cols).slots j t := by
  unfold genTrianglesGeo
  rw [resolveAllGeo_get?]
  simp

/-- C9: `genTriangles(3, 3, 1, 0)` produces exactly 8 triangles, the anchor at
row 1 / column 1 has both its `tT` and `tB` triangle slots populated, and
triangle 0's position array has length 9. -/
theorem scenario_3x3 :
    (genTriangles 3 3).length = 8 ∧
    (buildState 3 3).slots (1, 1) .tT ≠ none ∧
    (buildState 3 3).slots (1, 1) .tB ≠ none ∧
    ((genTrianglesGeo 3 3 1 0).get? 0).map (fun t => t.position.length) = some 9 := by
  refine ⟨by decide, by decide, by decide, ?_⟩
  rw [genTrianglesGeo_get?]
  have h0 : (buildState 3 3).tris.get? 0 = some ⟨some (1, 0), none, (0, 0), (0, 1)⟩ := by
    decide
  rw [h0]
  simp only [Option.map_some']
  rw [show (resolveGeo 3 3 (1 : ℝ) 0 (buildState 3 3).slots 0
    ⟨some (1, 0), none, (0, 0), (0, 1)⟩).position =
      triPosition (1 : ℝ) 0 ⟨some (1, 0), none, (0, 0), (0, 1)⟩ from rfl]
  rw [triPosition_length]

/-! ## C10: the centroid does not depend on the padding -/

lemma triCenter_padding_free (d p : ℝ) (t : Tri0) :
    triCenterX d p t = triCenterX d 0 t ∧ triCenterY d p t = triCenterY d 0 t := by
  unfold triCenterX triCenterY triPosition
  split_ifs with h
  · constructor
    · simp only [List.getD_cons_zero, List.getD_cons_succ]
      ring
    · simp only [List.getD_cons_zero, List.getD_cons_succ]
      unfold anchorPadY deg30
      rw [Real.sin_pi_div_six]
      ring
  · constructor
    · simp only [List.getD_cons_zero, List.getD_cons_succ]
      ring
    · simp only [List.getD_cons_zero, List.getD_cons_succ]
      unfold anchorPadY deg30
      rw [Real.sin_pi_div_six]
      ring

/-- C10: for every lattice and distance, each triangle's centroid
(`centerX`, `centerY`) computed by `genTriangles` is the same for every
padding as for padding 0: the tip's inward pull of `padding` and the two base
corners' pulls of `padding·sin(30°)` cancel in the three-vertex mean, and the
horizontal pulls `±padding·cos(30°)` cancel likewise. -/
theorem centroid_padding_independent (rows cols : ℕ) (hrows : 2 ≤ rows) (hcols : 2 ≤ cols)
    (d p : ℝ) (i : ℕ) :
    ((genTrianglesGeo rows cols d p).get? i).map (fun t => (t.centerX, t.centerY)) =
      ((genTrianglesGeo rows cols d 0).get? i).map (fun t => (t.centerX, t.centerY)) := by
  rw [genTrianglesGeo_get?, genTrianglesGeo_get?]
  cases h : (buildState rows cols).tris.get? i with
  | none => rfl
  | some t =>
    simp only [Option.map_some']
    have hx := (triCenter_padding_free d p t).1
    have hy := (triCenter_padding_free d p t).2
    rw [show (resolveGeo rows cols d p (buildState rows cols).slots i t).centerX =
      triCenterX d p t from rfl]
    rw [show (resolveGeo rows cols d p (buildState rows cols).slots i t).centerY =
      triCenterY d p t from rfl]
    rw [show (resolveGeo rows cols d 0 (buildState rows cols).slots i t).centerX =
      triCenterX d 0 t from rfl]
    rw [show (resolveGeo rows cols d 0 (buildState rows cols).slots i t).centerY =
      triCenterY d 0 t from rfl]
    rw [hx, hy]

/-- Witness for C10 at `rows = cols = 2`, `distance = 1`, `padding = 5`,
triangle 0. -/
theorem centroid_padding_independent_witness :
    ((genTrianglesGeo 2 2 1 5).get? 0).map (fun t => (t.centerX, t.centerY)) =
      ((genTrianglesGeo 2 2 1 0).get? 0).map (fun t => (t.centerX, t.centerY)) :=
  centroid_padding_independent 2 2 (by norm_num) (by norm_num) 1 5 0

/-! ## C4: the stored angular deltas -/

lemma atan2_mem_Ioc (y x : ℝ) : atan2 y x ∈ Set.Ioc (-Real.pi) Real.pi :=
  Complex.arg_mem_Ioc _

lemma atan2_diff_mem_Ioo (y1 x1 y2 x2 : ℝ) :
    atan2 y1 x1 - atan2 y2 x2 ∈ Set.Ioo (-(2 * Real.pi)) (2 * Real.pi) := by
  have h1 := atan2_mem_Ioc y1 x1
  have h2 := atan2_mem_Ioc y2 x2
  exact ⟨by linarith [h1.1, h2.2], by linarith [h1.2, h2.1]⟩

lemma atan2_eq_of_polar {y x r θ : ℝ} (hr : 0 < r) (hθ : θ ∈ Set.Ioc (-Real.pi) Real.pi)
    (hx : x = r * Real.cos θ) (hy : y = r * Real.sin θ) : atan2 y x = θ := by
  unfold atan2
  have hz : (⟨x, y⟩ : ℂ) = (r : ℂ) * (Complex.cos (θ : ℂ) + Complex.sin (θ : ℂ) * Complex.I) := by
    rw [← Complex.ofReal_cos, ← Complex.ofReal_sin, Complex.mk_eq_add_mul_I, hx, hy]
    push_cast
    ring
  rw [hz]
  exact Complex.arg_mul_cos_add_sin_mul_I hr hθ

lemma atan2_pi_div_six : atan2 (Real.sqrt 3 / 12) (1 / 4) = Real.pi / 6 := by
  have h3 : Real.sqrt 3 * Real.sqrt 3 = 3 := Real.mul_self_sqrt (by norm_num)
  have hr : (0 : ℝ) < Real.sqrt 3 / 6 := by positivity
  refine atan2_eq_of_polar hr ⟨by linarith [Real.pi_pos], by linarith [Real.pi_pos]⟩ ?_ ?_
  · rw [Real.cos_pi_div_six, div_mul_div_comm, h3]
    norm_num
  · rw [Real.sin_pi_div_six]
    ring

lemma atan2_neg_five_pi_div_six :
    atan2 (-(Real.sqrt 3 / 6)) (-(1 / 2)) = -(5 * Real.pi / 6) := by
  have h3 : Real.sqrt 3 * Real.sqrt 3 = 3 := Real.mul_self_sqrt (by norm_num)
  have hr : (0 : ℝ) < Real.sqrt 3 / 3 := by positivity
  have hc : Real.cos (-(5 * Real.pi / 6)) = -(Real.sqrt 3 / 2) := by
    rw [Real.cos_neg, show (5 * Real.pi / 6 : ℝ) = Real.pi - Real.pi / 6 by ring,
      Real.cos_pi_sub, Real.cos_pi_div_six]
  have hs : Real.sin (-(5 * Real.pi / 6)) = -(1 / 2) := by
    rw [Real.sin_neg, show (5 * Real.pi / 6 : ℝ) = Real.pi - Real.pi / 6 by ring,
      Real.sin_pi_sub, Real.sin_pi_div_six]
  refine atan2_eq_of_polar hr ⟨by linarith [Real.pi_pos], by linarith [Real.pi_pos]⟩ ?_ ?_
  · rw [hc]
    have : Real.sqrt 3 / 3 * (Real.sqrt 3 / 2) = 1 / 2 := by
      rw [div_mul_div_comm, h3]
      norm_num
    linarith [this]
  · rw [hs]
    ring

/-- The up-pointing triangle of the 2×2 lattice (index 0). -/
def upT22 : Tri0 := ⟨some (1, 0), none, (0, 0), (0, 1)⟩

/-- The down-pointing triangle of the 2×2 lattice (index 1). -/
def dnT22 : Tri0 := ⟨none, some (0, 1), (1, 0), (1, 1)⟩

lemma t22_get0 : (buildState 2 2).tris.get? 0 = some upT22 := by decide

lemma t22_get1 : (buildState 2 2).tris.get? 1 = some dnT22 := by decide

lemma centerX_up22 : triCenterX (1 : ℝ) 0 upT22 = 1 / 2 := by
  simp only [triCenterX, triPosition, upT22, isPointingUp, Option.isSome_some, if_true,
    Option.elim, anchorX, anchorY, colInc, rowInc, deg60, anchorPadX, anchorPadY, deg30,
    List.getD_cons_zero, List.getD_cons_succ]
  norm_num

lemma centerY_up22 : triCenterY (1 : ℝ) 0 upT22 = Real.sqrt 3 / 6 := by
  simp only [triCenterY, triPosition, upT22, isPointingUp, Option.isSome_some, if_true,
    Option.elim, anchorX, anchorY, colInc, rowInc, deg60, anchorPadX, anchorPadY, deg30,
    List.getD_cons_zero, List.getD_cons_succ]
  rw [Real.sin_pi_div_three]
  norm_num
  ring

lemma centerX_dn22 : triCenterX (1 : ℝ) 0 dnT22 = 1 := by
  simp only [triCenterX, triPosition, dnT22, isPointingUp, Option.isSome_none,
    Option.elim, anchorX, anchorY, colInc, rowInc, deg60, anchorPadX, anchorPadY, deg30,
    List.getD_cons_zero, List.getD_cons_succ]
  rw [Real.cos_pi_div_three]
  norm_num

lemma centerY_dn22 : triCenterY (1 : ℝ) 0 dnT22 = Real.sqrt 3 / 3 := by
  simp only [triCenterY, triPosition, dnT22, isPointingUp, Option.isSome_none,
    Option.elim, anchorX, anchorY, colInc, rowInc, deg60, anchorPadX, anchorPadY, deg30,
    List.getD_cons_zero, List.getD_cons_succ]
  rw [Real.sin_pi_div_three]
  norm_num

lemma globalCenterX22 : globalCenterX 2 2 (1 : ℝ) = 3 / 4 := by
  simp only [globalCenterX, anchorX, colInc, deg60]
  rw [Real.cos_pi_div_three]
  norm_num

lemma globalCenterY22 : globalCenterY 2 (1 : ℝ) = Real.sqrt 3 / 4 := by
  simp only [globalCenterY, anchorY, rowInc, deg60]
  rw [Real.sin_pi_div_three]
  norm_num
  ring

lemma gac22_tL :
    ((addGlobalAngleChanges (genTrianglesGeo 2 2 1 0)).get? 1).bind TriGA.gac_tL =
      some (-Real.pi) := by
  have hv : (genTrianglesGeo 2 2 1 0).get? 1 =
      some (resolveGeo 2 2 1 0 (buildState 2 2).slots 1 dnT22) := by
    rw [genTrianglesGeo_get?, t22_get1]
    rfl
  have hu : (genTrianglesGeo 2 2 1 0).get? 0 =
      some (resolveGeo 2 2 1 0 (buildState 2 2).slots 0 upT22) := by
    rw [genTrianglesGeo_get?, t22_get0]
    rfl
  have hvtL : (resolveGeo 2 2 (1 : ℝ) 0 (buildState 2 2).slots 1 dnT22).tL = some 0 := by
    show (resolveTri (buildState 2 2).slots 1 dnT22).tL = some 0
    decide
  rw [addGlobalAngleChanges, List.get?_map, hv]
  simp only [Option.map_some', Option.some_bind]
  rw [show (resolveGeo 2 2 (1 : ℝ) 0 (buildState 2 2).slots 1 dnT22).globalOffsetY =
    triCenterY (1 : ℝ) 0 dnT22 - globalCenterY 2 1 from rfl]
  rw [show (resolveGeo 2 2 (1 : ℝ) 0 (buildState 2 2).slots 1 dnT22).globalOffsetX =
    triCenterX (1 : ℝ) 0 dnT22 - globalCenterX 2 2 1 from rfl]
  rw [hvtL]
  simp only [Option.some_bind]
  rw [hu]
  simp only [Option.map_some']
  rw [show (resolveGeo 2 2 (1 : ℝ) 0 (buildState 2 2).slots 0 upT22).centerY =
    triCenterY (1 : ℝ) 0 upT22 from rfl]
  rw [show (resolveGeo 2 2 (1 : ℝ) 0 (buildState 2 2).slots 0 upT22).centerX =
    triCenterX (1 : ℝ) 0 upT22 from rfl]
  rw [show (resolveGeo 2 2 (1 : ℝ) 0 (buildState 2 2).slots 1 dnT22).centerY =
    triCenterY (1 : ℝ) 0 dnT22 from rfl]
  rw [show (resolveGeo 2 2 (1 : ℝ) 0 (buildState 2 2).slots 1 dnT22).centerX =
    triCenterX (1 : ℝ) 0 dnT22 from rfl]
  rw [centerX_up22, centerY_up22, centerX_dn22, centerY_dn22, globalCenterX22, globalCenterY22]
  rw [show (Real.sqrt 3 / 6 - Real.sqrt 3 / 3 : ℝ) = -(Real.sqrt 3 / 6) by ring]
  rw [show ((1 : ℝ) / 2 - 1) = -(1 / 2) by norm_num]
  rw [show (Real.sqrt 3 / 3 - Real.sqrt 3 / 4 : ℝ) = Real.sqrt 3 / 12 by ring]
  rw [show ((1 : ℝ) - 3 / 4) = 1 / 4 by norm_num]
  rw [atan2_neg_five_pi_div_six, atan2_pi_div_six]
  rw [show (-(5 * Real.pi / 6) - Real.pi / 6 : ℝ) = -Real.pi by ring]

/-- Counterexample to C4 as stated: on the 2×2 lattice with distance 1 and
padding 0, triangle 1's stored `globalAngleChange_tL` is exactly `-π`, which
lies outside the claimed interval `(-π, π]`. -/
theorem gac_outside_Ioc_counterexample :
    ((addGlobalAngleChanges (genTrianglesGeo 2 2 1 0)).get? 1).bind TriGA.gac_tL =
      some (-Real.pi) ∧ -Real.pi ∉ Set.Ioc (-Real.pi) Real.pi := by
  refine ⟨gac22_tL, ?_⟩
  simp [Set.mem_Ioc]

/-- C4 (amended): every angular delta stored by `addGlobalAngleChanges` is the
raw difference of two `atan2` values, each in `(-π, π]`, and is not
renormalized, so it lies in the open interval `(-2π, 2π)`. -/
theorem gac_bounds (rows cols : ℕ) (d p : ℝ) (i : ℕ) (t' : TriGA)
    (ht : (addGlobalAngleChanges (genTrianglesGeo rows cols d p)).get? i = some t')
    (δ : ℝ)
    (hδ : t'.gac_tL = some δ ∨ t'.gac_tR = some δ ∨ t'.gac_tT = some δ ∨ t'.gac_tB = some δ) :
    δ ∈ Set.Ioo (-(2 * Real.pi)) (2 * Real.pi) := by
  rw [addGlobalAngleChanges, List.get?_map] at ht
  obtain ⟨tri, htri, heq⟩ := Option.map_eq_some'.mp ht
  subst heq
  rcases hδ with h | h | h | h <;>
  · simp only at h
    obtain ⟨j, hj, h2⟩ := Option.bind_eq_some.mp h
    obtain ⟨nb, hnb, h3⟩ := Option.map_eq_some'.mp h2
    rw [← h3]
    exact atan2_diff_mem_Ioo _ _ _ _

/-- Witness for the amended C4: the concrete stored delta `-π` of the 2×2
lattice lies in `(-2π, 2π)`. -/
theorem gac_bounds_witness :
    ((addGlobalAngleChanges (genTrianglesGeo 2 2 1 0)).get? 1).bind TriGA.gac_tL =
      some (-Real.pi) ∧ -Real.pi ∈ Set.Ioo (-(2 * Real.pi)) (2 * Real.pi) := by
  refine ⟨gac22_tL, ?_⟩
  obtain ⟨t', ht', hL⟩ : ∃ t',
      (addGlobalAngleChanges (genTrianglesGeo 2 2 1 0)).get? 1 = some t' ∧
        t'.gac_tL = some (-Real.pi) := by
    rcases hopt : (addGlobalAngleChanges (genTrianglesGeo 2 2 1 0)).get? 1 with _ | t'
    · have hc := gac22_tL
      rw [hopt] at hc
      cases hc
    · have hc := gac22_tL
      rw [hopt] at hc
      exact ⟨t', rfl, by simpa using hc⟩
  exact gac_bounds 2 2 1 0 1 t' ht' (-Real.pi) (Or.inl hL)
